import Mathlib

/-!
# Console calculator (`calculator.cpp`): embedding and verified properties

The program is a menu loop (`AbstractCalculatorApp::RunApplication`) around a
four-operator evaluator (`ConsoleCalculator::PerformCalculation`).

Embedding conventions.

* `double` is IEEE-754 binary64, modelled exactly by `Dbl`: NaN, the two
  infinities, and the finite values `(-1)^neg * m * 2^(e - 1074)`.  Arithmetic
  is the exact rational result rounded to nearest, ties to even (`roundRat`),
  with overflow to infinity and signed zeros.
* `char` is a single-byte character, written as a `Char`.
* `std::cin` is a buffer of pending characters plus `eofbit` and `failbit`
  (`IStream`); a finite buffer followed by end-of-input.  The extraction
  operators follow the GNU implementation of `std::num_get` in the classic "C"
  locale with the default `dec | skipws` flags.
* `std::cout` and `std::cerr` are one chronological log of messages (`Msg`);
  `Msg.text` gives the exact characters of each message and `Msg.isErr` the
  stream it goes to.
* The `do ... while` loop of `RunApplication` takes a fuel argument counting
  menu iterations; `none` means the loop is still running when fuel runs out.
-/

namespace Calculator

/-! ## binary64 -/

/-- IEEE-754 binary64 value.  `fin neg m e` stands for
`(-1)^neg * m * 2^(e - 1074)`; the canonical finite values have `m < 2^53`,
`e ≤ 2045` and (`2^52 ≤ m` or `e = 0`). -/
inductive Dbl where
  | nan : Dbl
  | inf (neg : Bool) : Dbl
  | fin (neg : Bool) (m : Nat) (e : Nat) : Dbl
  deriving DecidableEq

namespace Dbl

/-- Positive zero, the value of the literal `0.0`. -/
def zero : Dbl := fin false 0 0

/-- Negative zero, the value of `-0.0`. -/
def negZero : Dbl := fin true 0 0

/-- Largest finite double, `std::numeric_limits<double>::max()`. -/
def maxFinite : Dbl := fin false (2 ^ 53 - 1) 2045

/-- Mirror of `std::isnan`. -/
def isnan : Dbl → Bool
  | nan => true
  | _ => false

/-- Mirror of `std::isfinite`. -/
def isFinite : Dbl → Bool
  | fin _ _ _ => true
  | _ => false

/-- The comparison `x != 0` of the source: true for NaN (unordered), for the
infinities and for every finite value of non-zero magnitude; false for both
`0.0` and `-0.0`. -/
def ne0 : Dbl → Bool
  | nan => true
  | inf _ => true
  | fin _ m _ => decide (m ≠ 0)

/-- Least `j` at or above the given one with `n < 2^(2^j)`, searching at most
`fuel` candidates. -/
def log2Width : Nat → Nat → Nat → Nat
  | 0, j, _ => j
  | fuel + 1, j, n => if n < 2 ^ 2 ^ j then j else log2Width fuel (j + 1) n

/-- Binary descent for `log2`: with `n < 2^(2^j)`, adds to `acc` the position
of the highest set bit of `n`. -/
def log2Desc : Nat → Nat → Nat → Nat
  | 0, _, acc => acc
  | j + 1, n, acc =>
    if 2 ^ 2 ^ j ≤ n then log2Desc j (n / 2 ^ 2 ^ j) (acc + 2 ^ j) else log2Desc j n acc

/-- Floor of the binary logarithm (`0` for `0`). -/
def log2 (n : Nat) : Nat := log2Desc (log2Width n 0 n) n 0

/-- Round the non-negative rational `p / q` (`0 < q`), expressed in units of
`2^-1074`, to the nearest binary64 magnitude, ties to even, and attach the
sign.  Magnitudes that round beyond the largest finite value give infinity. -/
def roundRat (neg : Bool) (p q : Nat) : Dbl :=
  let fl := p / q
  let k := if fl < 2 ^ 53 then 0 else log2 fl - 52
  let d := q * 2 ^ k
  let m := p / d
  let r := p % d
  let m1 := if d < 2 * r ∨ (2 * r = d ∧ m % 2 = 1) then m + 1 else m
  let m2 := if m1 = 2 ^ 53 then 2 ^ 52 else m1
  let k2 := if m1 = 2 ^ 53 then k + 1 else k
  if 2045 < k2 then inf neg else fin neg m2 k2

/-- Unary minus. -/
def neg : Dbl → Dbl
  | nan => nan
  | inf s => inf (!s)
  | fin s m e => fin (!s) m e

/-- Binary64 addition, `a + b`. -/
def add : Dbl → Dbl → Dbl
  | nan, _ => nan
  | _, nan => nan
  | inf s, inf t => if s = t then inf s else nan
  | inf s, fin _ _ _ => inf s
  | fin _ _ _, inf t => inf t
  | fin s m e, fin t n f =>
    let a := m * 2 ^ e
    let b := n * 2 ^ f
    if s = t then roundRat s (a + b) 1
    else if b < a then roundRat s (a - b) 1
    else if a < b then roundRat t (b - a) 1
    else fin false 0 0

/-- Binary64 subtraction, `a - b`. -/
def sub (a b : Dbl) : Dbl := add a (neg b)

/-- Binary64 multiplication, `a * b`. -/
def mul : Dbl → Dbl → Dbl
  | nan, _ => nan
  | _, nan => nan
  | inf s, inf t => inf (s != t)
  | inf s, fin t n _ => if n = 0 then nan else inf (s != t)
  | fin s m _, inf t => if m = 0 then nan else inf (s != t)
  | fin s m e, fin t n f => roundRat (s != t) (m * n * 2 ^ (e + f)) (2 ^ 1074)

/-- Binary64 division, `a / b`. -/
def div : Dbl → Dbl → Dbl
  | nan, _ => nan
  | _, nan => nan
  | inf _, inf _ => nan
  | inf s, fin t _ _ => inf (s != t)
  | fin s _ _, inf t => fin (s != t) 0 0
  | fin s m e, fin t n f =>
    if n = 0 then (if m = 0 then nan else inf (s != t))
    else roundRat (s != t) (m * 2 ^ (e + 1074)) (n * 2 ^ f)

/-- The double nearest to `(-1)^neg * d * 10^up / 10^down`: the correctly
rounded value `strtod` gives a decimal literal. -/
def ofDecimal (neg : Bool) (d up down : Nat) : Dbl :=
  roundRat neg (d * 10 ^ up * 2 ^ 1074) (10 ^ down)

end Dbl

/-! ## Text of numbers -/

/-- Character of the decimal digit `d`. -/
def digitChar (d : Nat) : Char := Char.ofNat (48 + d % 10)

/-- Decimal digits of `n`, most significant first, in front of `acc`. -/
def natDigits : Nat → Nat → List Char → List Char
  | 0, n, acc => digitChar n :: acc
  | fuel + 1, n, acc =>
    if n < 10 then digitChar n :: acc else natDigits fuel (n / 10) (digitChar n :: acc)

/-- Decimal numeral of `n` without leading zeros. -/
def natToDec (n : Nat) : List Char := natDigits n n []

/-- The `k` low decimal digits of `f`, most significant first. -/
def fracDigits : Nat → Nat → List Char
  | 0, _ => []
  | k + 1, f => digitChar (f / 10 ^ k) :: fracDigits k f

/-- Output of `std::cout << std::fixed << std::setprecision(prec) << x`: for a
finite `x` the exact value rounded to `prec` decimals (nearest, ties to even),
a minus sign when the sign bit is set, the integer part, and a decimal point
followed by exactly `prec` digits when `prec` is positive. -/
def Dbl.toFixed (prec : Nat) : Dbl → List Char
  | Dbl.nan => ['n', 'a', 'n']
  | Dbl.inf s => (if s then ['-'] else []) ++ ['i', 'n', 'f']
  | Dbl.fin s m e =>
    let p := m * 2 ^ e * 10 ^ prec
    let q := 2 ^ 1074
    let n0 := p / q
    let r := p % q
    let n := if q < 2 * r ∨ (2 * r = q ∧ n0 % 2 = 1) then n0 + 1 else n0
    (if s then ['-'] else []) ++ natToDec (n / 10 ^ prec)
      ++ (if prec = 0 then [] else '.' :: fracDigits prec (n % 10 ^ prec))

/-! ## Messages -/

/-- Everything the program writes, in the order written. -/
inductive Msg where
  | welcome : Msg
  | menu : Msg
  | badMenuInput : Msg
  | badMenuChoice : Msg
  | farewell : Msg
  | newOperation : Msg
  | promptA : Msg
  | promptOp : Msg
  | promptB : Msg
  | badNumber : Msg
  | badOperation : Msg
  | divisionByZero : Msg
  | unsupported (op : Char) : Msg
  | result (a : Dbl) (op : Char) (b : Dbl) (r : Dbl) : Msg
  deriving DecidableEq

namespace Msg

/-- Is the message written to `std::cerr` (otherwise `std::cout`)? -/
def isErr : Msg → Bool
  | divisionByZero => true
  | unsupported _ => true
  | _ => false

/-- Is the message the result line of `PrintResult`? -/
def isResult : Msg → Bool
  | result _ _ _ _ => true
  | _ => false

/-- The characters written for each message (`std::endl` is a line feed). -/
def text : Msg → String
  | welcome => "Добро пожаловать в ООП-Калькулятор!\n"
  | menu =>
    "\n=======================================\n" ++
    "          МЕНЮ КАЛЬКУЛЯТОРА\n" ++
    "=======================================\n" ++
    "1. Выполнить новую операцию\n" ++
    "0. Выйти из программы\n" ++
    "---------------------------------------\n" ++
    "Ваш выбор: "
  | badMenuInput => "Неверный ввод. Пожалуйста, введите число.\n"
  | badMenuChoice => "Неверный выбор. Пожалуйста, выберите 1 или 0.\n"
  | farewell => "\nПрограмма завершена. Спасибо за использование!\n"
  | newOperation => "\n--- Новая операция ---\n"
  | promptA => "Введите первое число (A): "
  | promptOp => "Введите операцию (+, -, *, /): "
  | promptB => "Введите второе число (B): "
  | badNumber => "Ошибка ввода числа.\n"
  | badOperation => "Ошибка ввода операции.\n"
  | divisionByZero => "!!! Ошибка: Деление на ноль! !!!\n"
  | unsupported op => "!!! Ошибка: Неподдерживаемая операция (" ++ String.mk [op] ++ ") !!!\n"
  | result a op b r =>
    "\n=> РЕЗУЛЬТАТ: " ++ String.mk (a.toFixed 2) ++ " " ++ String.mk [op] ++ " "
      ++ String.mk (b.toFixed 2) ++ " = " ++ String.mk (r.toFixed 2) ++ "\n"

end Msg

/-! ## The input stream -/

/-- Mirror of `std::isspace` in the "C" locale. -/
def isspace (c : Char) : Bool :=
  c = ' ' || c = '\t' || c = '\n' || c = Char.ofNat 11 || c = Char.ofNat 12 || c = '\r'

/-- Mirror of `std::isdigit`. -/
def isdigit (c : Char) : Bool := decide ('0' ≤ c ∧ c ≤ '9')

/-- Value of a string of decimal digits. -/
def decValue (ds : List Char) : Nat :=
  ds.foldl (fun a c => 10 * a + (c.toNat - 48)) 0

/-- An optional leading `+` or `-`, split from the rest. -/
def takeSign : List Char → List Char × List Char
  | [] => ([], [])
  | c :: cs => if c = '+' ∨ c = '-' then ([c], cs) else ([], c :: cs)

/-- The leading decimal digits, split from the rest. -/
def takeDigits : List Char → List Char × List Char
  | [] => ([], [])
  | c :: cs =>
    if isdigit c then (c :: (takeDigits cs).1, (takeDigits cs).2) else ([], c :: cs)

/-- Drop leading `0` characters. -/
def skipZeros : List Char → List Char
  | [] => []
  | c :: cs => if c = '0' then skipZeros cs else c :: cs

/-- Drop leading white space. -/
def skipSpace : List Char → List Char
  | [] => []
  | c :: cs => if isspace c then skipSpace cs else c :: cs

/-- Drop characters up to and including the first line feed; the flag tells
whether end-of-input was reached instead. -/
def dropLine : List Char → List Char × Bool
  | [] => ([], true)
  | c :: cs => if c = '\n' then (cs, false) else dropLine cs

/-- State of `std::cin`: pending characters (end-of-input follows them) and
the two state bits the program can observe. -/
structure IStream where
  buf : List Char
  eofbit : Bool
  failbit : Bool
  deriving DecidableEq

namespace IStream

/-- A fresh stream over the given input. -/
def ofInput (input : List Char) : IStream := ⟨input, false, false⟩

/-- Mirror of `good()`. -/
def good (s : IStream) : Bool := !s.eofbit && !s.failbit

/-- Mirror of `fail()`, the test made by `!(std::cin >> x)`. -/
def fail (s : IStream) : Bool := s.failbit

/-- Mirror of `clear()`. -/
def clear (s : IStream) : IStream := { s with eofbit := false, failbit := false }

/-- Mirror of `istream::sentry`: a stream that is not good gets `failbit`;
otherwise, unless `noskipws`, leading white space is consumed, and reaching
end-of-input while doing so sets `eofbit` and `failbit`. -/
def sentry (noskipws : Bool) (s : IStream) : Bool × IStream :=
  if s.good then
    if noskipws then (true, s)
    else
      match skipSpace s.buf with
      | [] => (false, { buf := [], eofbit := true, failbit := true })
      | c :: cs => (true, { s with buf := c :: cs })
  else (false, { s with failbit := true })

/-- Mirror of `ignore(numeric_limits<streamsize>::max(), '\n')`. -/
def ignoreLine (s : IStream) : IStream :=
  let r := s.sentry true
  if r.1 then { r.2 with buf := (dropLine r.2.buf).1, eofbit := (dropLine r.2.buf).2 }
  else r.2

end IStream

/-! ### Integer extraction -/

/-- Mirror of `num_get::get` for a decimal integer together with the range
check of `operator>>(int&)`: an optional sign and all following digits are
consumed; the result is the value and whether `failbit` is raised (no digit,
or a value outside `int`), with the value stored in either case. -/
def getInt (b : List Char) : Int × Bool × List Char :=
  let sg := takeSign b
  let ds := takeDigits sg.2
  let v : Int := if sg.1 = ['-'] then -(decValue ds.1 : Int) else (decValue ds.1 : Int)
  if ds.1 = [] then (0, true, ds.2)
  else if v < -2147483648 then (-2147483648, true, ds.2)
  else if 2147483647 < v then (2147483647, true, ds.2)
  else (v, false, ds.2)

/-- Mirror of `std::cin >> n` for `int n`. -/
def IStream.extractInt (s : IStream) (n : Int) : Int × IStream :=
  let r := s.sentry false
  if r.1 then
    let g := getInt r.2.buf
    (g.1, { buf := g.2.2, eofbit := g.2.2.isEmpty, failbit := g.2.1 })
  else (n, r.2)

/-! ### Character extraction -/

/-- Mirror of `std::cin >> c` for `char c`. -/
def IStream.extractChar (s : IStream) (c : Char) : Char × IStream :=
  let r := s.sentry false
  if r.1 then
    match r.2.buf with
    | [] => (c, { r.2 with eofbit := true, failbit := true })
    | d :: ds => (d, { r.2 with buf := ds })
  else (c, r.2)

/-! ### Floating-point extraction -/

/-- Main accumulation loop of `num_get` for floating point: digits, at most
one decimal point before any exponent, and one exponent mark (once a mantissa
digit has been seen) with an optional sign right after it.  The flag
`after_e` says that the previous character was the exponent mark, the only
place where the loop takes a sign.  Returns the accumulated text and the
unread input. -/
def floatLoop : List Char → Bool → Bool → Bool → Bool → List Char → List Char × List Char
  | [], _, _, _, _, x => (x, [])
  | c :: cs, found_mantissa, found_dec, found_sci, after_e, x =>
    if after_e = true ∧ (c = '+' ∨ c = '-') then
      floatLoop cs found_mantissa found_dec found_sci false (x ++ [c])
    else if isdigit c then floatLoop cs true found_dec found_sci false (x ++ [c])
    else if c = '.' ∧ found_dec = false ∧ found_sci = false then
      floatLoop cs found_mantissa true found_sci false (x ++ ['.'])
    else if (c = 'e' ∨ c = 'E') ∧ found_sci = false ∧ found_mantissa = true then
      floatLoop cs found_mantissa found_dec true true (x ++ ['e'])
    else (x, c :: cs)

/-- Accumulation stage of `num_get` for floating point: sign, leading zeros
(kept as a single `0`), then `floatLoop`. -/
def floatScan (b : List Char) : List Char × List Char :=
  let sg := takeSign b
  let z := skipZeros sg.2
  let found_mantissa := decide (z ≠ sg.2)
  floatLoop z found_mantissa false false false
    (sg.1 ++ (if found_mantissa then ['0'] else []))

/-- Mirror of `strtod` on accumulated text, as used by the conversion stage:
`some v` when the whole text is a decimal floating literal (`v` its correctly
rounded value, infinite on overflow), `none` when no conversion is possible or
characters are left over. -/
def strtod (x : List Char) : Option Dbl :=
  let sg := takeSign x
  let neg := decide (sg.1 = ['-'])
  let ip := takeDigits sg.2
  let fp := match ip.2 with
    | [] => ([], [])
    | c :: t => if c = '.' then takeDigits t else ([], c :: t)
  let d := decValue (ip.1 ++ fp.1)
  if ip.1 = [] ∧ fp.1 = [] then none
  else
    match fp.2 with
    | [] => some (Dbl.ofDecimal neg d 0 fp.1.length)
    | c :: t =>
      if c = 'e' ∨ c = 'E' then
        let es := takeSign t
        let ed := takeDigits es.2
        if ed.1 = [] ∨ ed.2 ≠ [] then none
        else if es.1 = ['-'] then some (Dbl.ofDecimal neg d 0 (decValue ed.1 + fp.1.length))
        else some (Dbl.ofDecimal neg d (decValue ed.1) fp.1.length)
      else none

/-- Conversion stage of `num_get` for `double`: a failed conversion stores
`0.0`, an overflowing one stores the largest finite value with the sign, and
both raise `failbit`. -/
def convertDouble (x : List Char) : Dbl × Bool :=
  match strtod x with
  | none => (Dbl.zero, true)
  | some (Dbl.inf s) => (if s then Dbl.maxFinite.neg else Dbl.maxFinite, true)
  | some v => (v, false)

/-- Mirror of `std::cin >> x` for `double x`. -/
def IStream.extractDouble (s : IStream) (x : Dbl) : Dbl × IStream :=
  let r := s.sentry false
  if r.1 then
    let sc := floatScan r.2.buf
    let cv := convertDouble sc.1
    (cv.1, { buf := sc.2, eofbit := sc.2.isEmpty, failbit := cv.2 })
  else (x, r.2)

/-! ## The application -/

/-- Mirror of `ConsoleCalculator::PerformCalculation`: the returned value and
the diagnostics written to `std::cerr`. -/
def PerformCalculation (firstNumber secondNumber : Dbl) (operation : Char) : Dbl × List Msg :=
  if operation = '+' then (firstNumber.add secondNumber, [])
  else if operation = '-' then (firstNumber.sub secondNumber, [])
  else if operation = '*' then (firstNumber.mul secondNumber, [])
  else if operation = '/' then
    if secondNumber.ne0 then (firstNumber.div secondNumber, [])
    else (Dbl.nan, [Msg.divisionByZero])
  else (Dbl.nan, [Msg.unsupported operation])

/-- The calculator object together with the streams it works on: `std::cin`,
the messages written so far, and the three fields of `AbstractCalculatorApp`. -/
structure App where
  cin : IStream
  log : List Msg
  _firstNumber : Dbl
  _secondNumber : Dbl
  _operation : Char
  deriving DecidableEq

namespace App

/-- A freshly constructed `ConsoleCalculator` reading the given input. -/
def init (input : List Char) : App :=
  { cin := IStream.ofInput input, log := [], _firstNumber := Dbl.zero,
    _secondNumber := Dbl.zero, _operation := ' ' }

/-- Write one message. -/
def print (a : App) (m : Msg) : App := { a with log := a.log ++ [m] }

/-- Mirror of `AbstractCalculatorApp::ClearInputBuffer`. -/
def ClearInputBuffer (a : App) : App := { a with cin := a.cin.clear.ignoreLine }

/-- Mirror of `AbstractCalculatorApp::PrintResult`. -/
def PrintResult (a : App) (result : Dbl) : App :=
  a.print (Msg.result a._firstNumber a._operation a._secondNumber result)

/-- Mirror of `AbstractCalculatorApp::DisplayMenu`.  The local `menuChoice`
is uninitialised in the source; it is only used after a successful read. -/
def DisplayMenu (a : App) : Int × App :=
  let a1 := a.print Msg.menu
  let r := a1.cin.extractInt 0
  let menuChoice := r.1
  let a2 := { a1 with cin := r.2 }
  if a2.cin.fail then (-1, (a2.print Msg.badMenuInput).ClearInputBuffer)
  else if menuChoice < 0 ∨ menuChoice > 1 then (-1, a2.print Msg.badMenuChoice)
  else (menuChoice, a2)

/-- Mirror of `ConsoleCalculator::RunSingleOperation`. -/
def RunSingleOperation (a : App) : App :=
  let a1 := (a.print Msg.newOperation).print Msg.promptA
  let rA := a1.cin.extractDouble a1._firstNumber
  let a2 := { a1 with cin := rA.2, _firstNumber := rA.1 }
  if a2.cin.fail then (a2.print Msg.badNumber).ClearInputBuffer
  else
    let a3 := a2.print Msg.promptOp
    let rO := a3.cin.extractChar a3._operation
    let a4 := { a3 with cin := rO.2, _operation := rO.1 }
    if a4.cin.fail then (a4.print Msg.badOperation).ClearInputBuffer
    else
      let a5 := a4.print Msg.promptB
      let rB := a5.cin.extractDouble a5._secondNumber
      let a6 := { a5 with cin := rB.2, _secondNumber := rB.1 }
      if a6.cin.fail then (a6.print Msg.badNumber).ClearInputBuffer
      else
        let pc := PerformCalculation a6._firstNumber a6._secondNumber a6._operation
        let a7 := { a6 with log := a6.log ++ pc.2 }
        if !pc.1.isnan then a7.PrintResult pc.1 else a7

/-- The `do ... while` loop of `RunApplication`, for at most `fuel` menu
iterations; `none` when the loop has not ended by then. -/
def menuLoop : Nat → App → Option App
  | 0, _ => none
  | fuel + 1, a =>
    let r := a.DisplayMenu
    let currentChoice := r.1
    if currentChoice = 0 then some r.2
    else
      let a2 := if currentChoice = 1 then r.2.RunSingleOperation else r.2
      if currentChoice ≠ 0 then menuLoop fuel a2 else some a2

/-- Mirror of `AbstractCalculatorApp::RunApplication`. -/
def RunApplication (fuel : Nat) (a : App) : Option App :=
  (menuLoop fuel (a.print Msg.welcome)).map fun a2 => a2.print Msg.farewell

end App

/-- Mirror of `main`: the exit code and everything written, or `none` when the
session is still running after `fuel` menu iterations. -/
def main (fuel : Nat) (input : List Char) : Option (Int × List Msg) :=
  ((App.init input).RunApplication fuel).map fun a => (0, a.log)

/-- All characters written to `std::cout` and `std::cerr`, in order. -/
def transcript (log : List Msg) : String :=
  log.foldl (fun acc m => acc ++ m.text) ""

/-! ## Auxiliary notions used in the statements -/

namespace IStream

/-- The state `std::cin` is in between the program's statements: `failbit`
is clear, and `eofbit` is set only when no input is left. -/
def Settled (s : IStream) : Prop := s.failbit = false ∧ (s.eofbit = true → s.buf = [])

instance (s : IStream) : Decidable s.Settled := by
  unfold Settled
  infer_instance

end IStream

/-- The requests the evaluator accepts, in the words of the specification:
the operator is one of `+`, `-`, `*`, `/`, and the request is not a division
whose second operand compares equal to zero. -/
def Accepted (op : Char) (b : Dbl) : Prop :=
  (op = '+' ∨ op = '-' ∨ op = '*' ∨ op = '/') ∧ ¬ (op = '/' ∧ b.ne0 = false)

instance (op : Char) (b : Dbl) : Decidable (Accepted op b) := by
  unfold Accepted
  infer_instance


namespace App

/-- First read of `RunSingleOperation`, `std::cin >> _firstNumber`: the value
stored and the stream it leaves. -/
def readA (a : App) : Dbl × IStream := a.cin.extractDouble a._firstNumber

/-- Second read of `RunSingleOperation`, `std::cin >> _operation`, made on the
stream the first read leaves. -/
def readOp (a : App) : Char × IStream := a.readA.2.extractChar a._operation

/-- Third read of `RunSingleOperation`, `std::cin >> _secondNumber`, made on
the stream the second read leaves. -/
def readB (a : App) : Dbl × IStream := a.readOp.2.extractDouble a._secondNumber

end App

/-- Session states of the interactive shell, as the specification names
them. -/
inductive Session where
  | AwaitingMenuChoice : Session
  | RunningOperation : Session
  | Terminated : Session
  deriving DecidableEq

/-- One transition of the session state machine in the words of the
specification: from `AwaitingMenuChoice` the menu is shown and read, choice 1
leads to `RunningOperation`, choice 0 to `Terminated` (the farewell is
printed), anything else stays in `AwaitingMenuChoice`; from `RunningOperation`
one attempt is made and the session is back in `AwaitingMenuChoice`;
`Terminated` is terminal. -/
def sessionStep : Session × App → Session × App
  | (Session.AwaitingMenuChoice, a) =>
    if a.DisplayMenu.1 = 1 then (Session.RunningOperation, a.DisplayMenu.2)
    else if a.DisplayMenu.1 = 0 then (Session.Terminated, a.DisplayMenu.2.print Msg.farewell)
    else (Session.AwaitingMenuChoice, a.DisplayMenu.2)
  | (Session.RunningOperation, a) => (Session.AwaitingMenuChoice, a.RunSingleOperation)
  | (Session.Terminated, a) => (Session.Terminated, a)

/-- The state machine after `n` transitions. -/
def sessionRun : Nat → Session × App → Session × App
  | 0, c => c
  | n + 1, c => sessionRun n (sessionStep c)

/-- Text in fixed-point notation with exactly two digits after the decimal
point: an optional minus sign, one or more digits, a point, two digits. -/
def HasTwoFractionDigits (t : List Char) : Prop :=
  ∃ (sign ip : List Char) (d1 d2 : Char),
    t = sign ++ ip ++ ['.', d1, d2] ∧ (sign = [] ∨ sign = ['-']) ∧ ip ≠ [] ∧
      (∀ c ∈ ip, isdigit c = true) ∧ isdigit d1 = true ∧ isdigit d2 = true

/-! ## Properties of the arithmetic -/

set_option exponentiation.threshold 20000
set_option maxRecDepth 20000

namespace Dbl

theorem roundRat_isnan (s : Bool) (p q : Nat) : (roundRat s p q).isnan = false := by
  have key : ∀ (c : Prop) [Decidable c] (m k : Nat),
      (if c then inf s else fin s m k).isnan = false := by
    intro c _ m k
    by_cases h : c <;> simp [h, isnan]
  exact key _ _ _

theorem log2Width_spec (fuel j n : Nat) (h : n < 2 ^ 2 ^ (j + fuel)) :
    n < 2 ^ 2 ^ log2Width fuel j n := by
  induction fuel generalizing j with
  | zero => simpa [log2Width] using h
  | succ k ih =>
    unfold log2Width
    split_ifs with hlt
    · exact hlt
    · apply ih
      have : j + 1 + k = j + (k + 1) := by omega
      rw [this]
      exact h

theorem log2Desc_spec (j n acc : Nat) (hn : 0 < n) (h : n < 2 ^ 2 ^ j) :
    ∃ l : Nat, log2Desc j n acc = acc + l ∧ 2 ^ l ≤ n ∧ n < 2 ^ (l + 1) := by
  induction j generalizing n acc with
  | zero =>
    refine ⟨0, rfl, ?_, ?_⟩
    · simpa using hn
    · simpa using h
  | succ k ih =>
    have hsq : 2 ^ 2 ^ (k + 1) = 2 ^ 2 ^ k * 2 ^ 2 ^ k := by
      rw [pow_succ, Nat.mul_two, pow_add]
    have hpos : 0 < 2 ^ 2 ^ k := Nat.pow_pos (by decide)
    unfold log2Desc
    split_ifs with hge
    · have h1 : 0 < n / 2 ^ 2 ^ k := Nat.div_pos hge hpos
      have h2 : n / 2 ^ 2 ^ k < 2 ^ 2 ^ k := by
        rw [Nat.div_lt_iff_lt_mul hpos]
        rw [hsq] at h
        exact h
      obtain ⟨l, hl, hlo, hhi⟩ := ih (n / 2 ^ 2 ^ k) (acc + 2 ^ k) h1 h2
      refine ⟨2 ^ k + l, by rw [hl]; omega, ?_, ?_⟩
      · rw [pow_add]
        calc 2 ^ 2 ^ k * 2 ^ l ≤ 2 ^ 2 ^ k * (n / 2 ^ 2 ^ k) := Nat.mul_le_mul_left _ hlo
          _ ≤ n := Nat.mul_div_le n _
      · have : 2 ^ (2 ^ k + l + 1) = 2 ^ 2 ^ k * 2 ^ (l + 1) := by
          rw [Nat.add_assoc, pow_add]
        rw [this]
        calc n < 2 ^ 2 ^ k * (n / 2 ^ 2 ^ k + 1) := Nat.lt_mul_div_succ n hpos
          _ ≤ 2 ^ 2 ^ k * 2 ^ (l + 1) := Nat.mul_le_mul_left _ hhi
    · exact ih n acc hn (by omega)

/-- The binary logarithm computed by `log2` is the position of the highest
set bit. -/
theorem log2_spec (n : Nat) (hn : 0 < n) : 2 ^ log2 n ≤ n ∧ n < 2 ^ (log2 n + 1) := by
  have hw : n < 2 ^ 2 ^ log2Width n 0 n := by
    apply log2Width_spec
    rw [Nat.zero_add]
    calc n < 2 ^ n := Nat.lt_two_pow n
      _ ≤ 2 ^ 2 ^ n := Nat.pow_le_pow_right (by decide) (Nat.lt_two_pow n).le
  obtain ⟨l, hl, hlo, hhi⟩ := log2Desc_spec (log2Width n 0 n) n 0 hn hw
  have : log2 n = l := by
    unfold log2
    rw [hl, Nat.zero_add]
  rw [this]
  exact ⟨hlo, hhi⟩

theorem round_step (p d m1 : Nat)
    (hm1 : m1 = if d < 2 * (p % d) ∨ (2 * (p % d) = d ∧ p / d % 2 = 1) then p / d + 1 else p / d)
    (hd : 0 < d) :
    2 * (m1 * d) ≤ 2 * p + d ∧ 2 * p ≤ 2 * (m1 * d) + d ∧ p / d ≤ m1 ∧ m1 ≤ p / d + 1 := by
  have hdiv : d * (p / d) + p % d = p := Nat.div_add_mod p d
  have hr : p % d < d := Nat.mod_lt _ hd
  have hc : p / d * d = d * (p / d) := Nat.mul_comm _ _
  split_ifs at hm1 with hup
  · have h2 : d ≤ 2 * (p % d) := by
      rcases hup with h | h
      · exact h.le
      · exact h.1.ge
    have : m1 * d = d * (p / d) + d := by
      rw [hm1, Nat.add_mul, Nat.one_mul, hc]
    refine ⟨by omega, by omega, by omega, by omega⟩
  · have h2 : 2 * (p % d) ≤ d := by
      by_contra hcon
      exact hup (Or.inl (by omega))
    have : m1 * d = d * (p / d) := by rw [hm1, hc]
    refine ⟨by omega, by omega, by omega, by omega⟩

/-- What `roundRat` returns for a positive denominator: infinity, or a
canonical finite value (`m < 2^53`, `e ≤ 2045`, normalised unless `e = 0`)
within half a unit in the last place of `p / q`. -/
theorem roundRat_spec (s : Bool) (p q : Nat) (hq : 0 < q) :
    roundRat s p q = inf s ∨
    ∃ m k : Nat, roundRat s p q = fin s m k ∧ m < 2 ^ 53 ∧ k ≤ 2045 ∧ (2 ^ 52 ≤ m ∨ k = 0) ∧
      2 * (m * 2 ^ k * q) ≤ 2 * p + q * 2 ^ k ∧ 2 * p ≤ 2 * (m * 2 ^ k * q) + q * 2 ^ k := by
  -- the exponent chosen and the bounds it gives on the truncated mantissa
  obtain ⟨k, hk, hlo, hhi⟩ : ∃ k : Nat, k = (if p / q < 2 ^ 53 then 0 else log2 (p / q) - 52) ∧
      (2 ^ 52 ≤ p / (q * 2 ^ k) ∨ k = 0) ∧ p / (q * 2 ^ k) < 2 ^ 53 := by
    refine ⟨_, rfl, ?_, ?_⟩
    · split_ifs with h
      · exact Or.inr rfl
      · left
        have hfl : 0 < p / q := by
          have : 0 < 2 ^ 53 := by norm_num
          omega
        obtain ⟨h1, h2⟩ := log2_spec (p / q) hfl
        have hL : 53 ≤ log2 (p / q) := by
          by_contra hc
          have : log2 (p / q) + 1 ≤ 53 := by omega
          have := Nat.pow_le_pow_right (show 0 < 2 by decide) this
          omega
        rw [← Nat.div_div_eq_div_mul, Nat.le_div_iff_mul_le (Nat.pow_pos (by decide)), ← pow_add]
        have : 52 + (log2 (p / q) - 52) = log2 (p / q) := by omega
        rw [this]
        exact h1
    · split_ifs with h
      · simpa using h
      · have hfl : 0 < p / q := by
          have : 0 < 2 ^ 53 := by norm_num
          omega
        obtain ⟨h1, h2⟩ := log2_spec (p / q) hfl
        have hL : 53 ≤ log2 (p / q) := by
          by_contra hc
          have : log2 (p / q) + 1 ≤ 53 := by omega
          have := Nat.pow_le_pow_right (show 0 < 2 by decide) this
          omega
        rw [← Nat.div_div_eq_div_mul, Nat.div_lt_iff_lt_mul (Nat.pow_pos (by decide)), ← pow_add]
        have : 53 + (log2 (p / q) - 52) = log2 (p / q) + 1 := by omega
        rw [this]
        exact h2
  have hd : 0 < q * 2 ^ k := Nat.mul_pos hq (Nat.pow_pos (by decide))
  obtain ⟨m1, hm1⟩ : ∃ m1 : Nat, m1 = if q * 2 ^ k < 2 * (p % (q * 2 ^ k)) ∨
      (2 * (p % (q * 2 ^ k)) = q * 2 ^ k ∧ p / (q * 2 ^ k) % 2 = 1)
      then p / (q * 2 ^ k) + 1 else p / (q * 2 ^ k) := ⟨_, rfl⟩
  obtain ⟨b1, b2, b3, b4⟩ := round_step p (q * 2 ^ k) m1 hm1 hd
  have hval : roundRat s p q =
      if 2045 < (if m1 = 2 ^ 53 then k + 1 else k) then inf s
      else fin s (if m1 = 2 ^ 53 then 2 ^ 52 else m1) (if m1 = 2 ^ 53 then k + 1 else k) := by
    unfold roundRat
    simp only [← hk, ← hm1]
  rw [hval]
  have e53 : (2 : Nat) ^ 53 = 2 * 2 ^ 52 := by norm_num
  by_cases hov : 2045 < (if m1 = 2 ^ 53 then k + 1 else k)
  · left
    rw [if_pos hov]
  · right
    rw [if_neg hov]
    refine ⟨_, _, rfl, ?_, by omega, ?_, ?_, ?_⟩
    · split_ifs <;> omega
    · split_ifs with h
      · exact Or.inl le_rfl
      · rcases hlo with h' | h'
        · exact Or.inl (by omega)
        · exact Or.inr h'
    · split_ifs with h
      · have e : 2 ^ 52 * 2 ^ (k + 1) * q = m1 * (q * 2 ^ k) := by
          rw [h, e53, pow_succ]; ring
        rw [e]
        have : q * 2 ^ k ≤ q * 2 ^ (k + 1) :=
          Nat.mul_le_mul_left _ (Nat.pow_le_pow_right (by decide) (by omega))
        omega
      · have e : m1 * 2 ^ k * q = m1 * (q * 2 ^ k) := by ring
        rw [e]
        exact b1
    · split_ifs with h
      · have e : 2 ^ 52 * 2 ^ (k + 1) * q = m1 * (q * 2 ^ k) := by
          rw [h, e53, pow_succ]; ring
        rw [e]
        have : q * 2 ^ k ≤ q * 2 ^ (k + 1) :=
          Nat.mul_le_mul_left _ (Nat.pow_le_pow_right (by decide) (by omega))
        omega
      · have e : m1 * 2 ^ k * q = m1 * (q * 2 ^ k) := by ring
        rw [e]
        exact b2

/-- The arithmetic on familiar values: `0.1 + 0.2` is the double above `0.3`,
`1 / 3` is rounded to 53 bits, `5 + 3 = 8`, the largest finite value doubled
overflows to infinity, `1e308 * 10` overflows, `0 * -1 = -0`, and the
difference of equal values is `+0`. -/
theorem arithmetic_examples :
    (ofDecimal false 1 0 1).add (ofDecimal false 2 0 1) = fin false 5404319552844596 1020 ∧
    ofDecimal false 3 0 1 = fin false 5404319552844595 1020 ∧
    (ofDecimal false 1 0 0).div (ofDecimal false 3 0 0) = fin false 6004799503160661 1020 ∧
    (ofDecimal false 5 0 0).add (ofDecimal false 3 0 0) = ofDecimal false 8 0 0 ∧
    maxFinite.add maxFinite = inf false ∧
    (ofDecimal false 1 308 0).mul (ofDecimal false 10 0 0) = inf false ∧
    zero.mul (ofDecimal true 1 0 0) = negZero ∧
    (ofDecimal false 7 0 0).sub (ofDecimal false 7 0 0) = zero ∧
    (ofDecimal false 1 0 400) = zero ∧
    (ofDecimal false 1 0 0) = fin false (2 ^ 52) 1022 := by
  decide

theorem add_isnan_of_finite (a b : Dbl) (ha : a.isFinite = true) (hb : b.isFinite = true) :
    (a.add b).isnan = false := by
  cases a <;> cases b <;> simp [isFinite] at ha hb
  simp only [add]
  split_ifs <;> first | exact roundRat_isnan _ _ _ | rfl

theorem neg_isFinite (b : Dbl) (hb : b.isFinite = true) : b.neg.isFinite = true := by
  cases b <;> simp [isFinite, neg] at hb ⊢

theorem sub_isnan_of_finite (a b : Dbl) (ha : a.isFinite = true) (hb : b.isFinite = true) :
    (a.sub b).isnan = false :=
  add_isnan_of_finite a b.neg ha (neg_isFinite b hb)

theorem mul_isnan_of_finite (a b : Dbl) (ha : a.isFinite = true) (hb : b.isFinite = true) :
    (a.mul b).isnan = false := by
  cases a <;> cases b <;> simp [isFinite] at ha hb
  simp only [mul]
  exact roundRat_isnan _ _ _

theorem div_isnan_of_finite (a b : Dbl) (ha : a.isFinite = true) (hb : b.isFinite = true)
    (h0 : b.ne0 = true) : (a.div b).isnan = false := by
  cases a <;> cases b <;> simp [isFinite] at ha hb
  simp only [ne0, decide_eq_true_eq] at h0
  simp only [div, if_neg h0]
  exact roundRat_isnan _ _ _

/-- A finite double compares unequal to zero exactly when its magnitude is
not zero; both signed zeros compare equal to zero. -/
theorem ne0_fin (s : Bool) (m e : Nat) : (fin s m e).ne0 = true ↔ m ≠ 0 := by
  simp [ne0]

end Dbl

/-! ## Properties of the evaluator -/

theorem PerformCalculation_div (a b : Dbl) (h : b.ne0 = true) :
    PerformCalculation a b '/' = (a.div b, []) := by
  simp [PerformCalculation, h]

theorem PerformCalculation_default (a b : Dbl) (op : Char)
    (h1 : op ≠ '+') (h2 : op ≠ '-') (h3 : op ≠ '*') (h4 : op ≠ '/') :
    PerformCalculation a b op = (Dbl.nan, [Msg.unsupported op]) := by
  simp [PerformCalculation, h1, h2, h3, h4]

/-- C1: for all operands (in particular all finite ones), `PerformCalculation`
returns the sum for `+`, the difference for `-`, the product for `*`, and, when
the second operand does not compare equal to zero, the quotient for `/`; in
each of these cases nothing is written to `std::cerr`. -/
theorem PerformCalculation_arithmetic (a b : Dbl) :
    PerformCalculation a b '+' = (a.add b, []) ∧
    PerformCalculation a b '-' = (a.sub b, []) ∧
    PerformCalculation a b '*' = (a.mul b, []) ∧
    (b.ne0 = true → PerformCalculation a b '/' = (a.div b, [])) := by
  exact ⟨rfl, rfl, rfl, PerformCalculation_div a b⟩

theorem PerformCalculation_arithmetic_witness :
    PerformCalculation (Dbl.ofDecimal false 6 0 0) (Dbl.ofDecimal false 3 0 0) '+'
        = (Dbl.ofDecimal false 9 0 0, []) ∧
      PerformCalculation (Dbl.ofDecimal false 6 0 0) (Dbl.ofDecimal false 3 0 0) '-'
        = (Dbl.ofDecimal false 3 0 0, []) ∧
      PerformCalculation (Dbl.ofDecimal false 6 0 0) (Dbl.ofDecimal false 3 0 0) '*'
        = (Dbl.ofDecimal false 18 0 0, []) ∧
      PerformCalculation (Dbl.ofDecimal false 6 0 0) (Dbl.ofDecimal false 3 0 0) '/'
        = (Dbl.ofDecimal false 2 0 0, []) := by
  have h := PerformCalculation_arithmetic (Dbl.ofDecimal false 6 0 0) (Dbl.ofDecimal false 3 0 0)
  have e1 : (Dbl.ofDecimal false 6 0 0).add (Dbl.ofDecimal false 3 0 0)
      = Dbl.ofDecimal false 9 0 0 := by decide
  have e2 : (Dbl.ofDecimal false 6 0 0).sub (Dbl.ofDecimal false 3 0 0)
      = Dbl.ofDecimal false 3 0 0 := by decide
  have e3 : (Dbl.ofDecimal false 6 0 0).mul (Dbl.ofDecimal false 3 0 0)
      = Dbl.ofDecimal false 18 0 0 := by decide
  have e4 : (Dbl.ofDecimal false 6 0 0).div (Dbl.ofDecimal false 3 0 0)
      = Dbl.ofDecimal false 2 0 0 := by decide
  rw [← e1, ← e2, ← e3, ← e4]
  exact ⟨h.1, h.2.1, h.2.2.1, h.2.2.2 (by decide)⟩

/-- C2: dividing by a zero of either sign never yields a quotient: for every
first operand (in particular every finite one) and both `0.0` and `-0.0` as
second operand, `PerformCalculation` with `/` returns NaN and writes the
division-by-zero diagnostic to `std::cerr`, because either zero fails the test
`secondNumber != 0`. -/
theorem PerformCalculation_division_by_zero (a : Dbl) (s : Bool) (e : Nat) :
    (Dbl.fin s 0 e).ne0 = false ∧
    PerformCalculation a (Dbl.fin s 0 e) '/' = (Dbl.nan, [Msg.divisionByZero]) ∧
    PerformCalculation a Dbl.zero '/' = (Dbl.nan, [Msg.divisionByZero]) ∧
    PerformCalculation a Dbl.negZero '/' = (Dbl.nan, [Msg.divisionByZero]) ∧
    Dbl.nan.isnan = true ∧ Msg.divisionByZero.isErr = true ∧
    Msg.divisionByZero.text = "!!! Ошибка: Деление на ноль! !!!\n" :=
  ⟨rfl, rfl, rfl, rfl, rfl, rfl, rfl⟩

/-- C3: for all operands and every operator character other than `+`, `-`,
`*` and `/`, `PerformCalculation` returns NaN and writes to `std::cerr` the
unsupported-operation diagnostic, whose text names the character. -/
theorem PerformCalculation_unsupported (a b : Dbl) (op : Char)
    (h1 : op ≠ '+') (h2 : op ≠ '-') (h3 : op ≠ '*') (h4 : op ≠ '/') :
    PerformCalculation a b op = (Dbl.nan, [Msg.unsupported op]) ∧
    Dbl.nan.isnan = true ∧ (Msg.unsupported op).isErr = true ∧
    (Msg.unsupported op).text
      = "!!! Ошибка: Неподдерживаемая операция (" ++ String.mk [op] ++ ") !!!\n" := by
  exact ⟨PerformCalculation_default a b op h1 h2 h3 h4, rfl, rfl, rfl⟩

theorem PerformCalculation_unsupported_witness :
    PerformCalculation (Dbl.ofDecimal false 5 0 0) (Dbl.ofDecimal false 3 0 0) '%'
        = (Dbl.nan, [Msg.unsupported '%']) ∧
      Dbl.nan.isnan = true ∧ (Msg.unsupported '%').isErr = true ∧
      (Msg.unsupported '%').text
        = "!!! Ошибка: Неподдерживаемая операция (" ++ String.mk ['%'] ++ ") !!!\n" :=
  PerformCalculation_unsupported (Dbl.ofDecimal false 5 0 0) (Dbl.ofDecimal false 3 0 0) '%'
    (by decide) (by decide) (by decide) (by decide)

/-! ## Properties of the input stream -/

theorem isdigit_ne_newline (c : Char) (h : isdigit c = true) : c ≠ '\n' := by
  rintro rfl
  exact absurd h (by decide)

theorem dropLine_cons_of_ne (c : Char) (cs : List Char) (h : c ≠ '\n') :
    dropLine (c :: cs) = dropLine cs := by
  simp [dropLine, h]

theorem dropLine_takeDigits (b : List Char) : dropLine (takeDigits b).2 = dropLine b := by
  induction b with
  | nil => rfl
  | cons c cs ih =>
    by_cases h : isdigit c = true
    · simp only [takeDigits, h, if_true]
      rw [ih, dropLine_cons_of_ne c cs (isdigit_ne_newline c h)]
    · simp [takeDigits, h]

theorem dropLine_takeSign (b : List Char) : dropLine (takeSign b).2 = dropLine b := by
  cases b with
  | nil => rfl
  | cons c cs =>
    by_cases h : c = '+' ∨ c = '-'
    · have hc : c ≠ '\n' := by
        rcases h with rfl | rfl <;> decide
      simp only [takeSign, h, if_true]
      rw [dropLine_cons_of_ne c cs hc]
    · simp [takeSign, h]

theorem dropLine_skipZeros (b : List Char) : dropLine (skipZeros b) = dropLine b := by
  induction b with
  | nil => rfl
  | cons c cs ih =>
    by_cases h : c = '0'
    · have hc : c ≠ '\n' := by
        rw [h]; decide
      simp only [skipZeros, h, if_true]
      rw [ih, dropLine_cons_of_ne _ cs (by decide)]
    · simp [skipZeros, h]

theorem dropLine_floatLoop (b : List Char) (fm fd fs ae : Bool) (x : List Char) :
    dropLine (floatLoop b fm fd fs ae x).2 = dropLine b := by
  induction b generalizing fm fd fs ae x with
  | nil => rfl
  | cons c cs ih =>
    unfold floatLoop
    split_ifs with h1 h2 h3 h4
    · have hc : c ≠ '\n' := by
        rcases h1.2 with rfl | rfl <;> decide
      rw [ih, dropLine_cons_of_ne c cs hc]
    · rw [ih, dropLine_cons_of_ne c cs (isdigit_ne_newline c h2)]
    · have hc : c ≠ '\n' := by
        rw [h3.1]; decide
      rw [ih, dropLine_cons_of_ne c cs hc]
    · have hc : c ≠ '\n' := by
        rcases h4.1 with rfl | rfl <;> decide
      rw [ih, dropLine_cons_of_ne c cs hc]
    · rfl

theorem dropLine_getInt (b : List Char) : dropLine (getInt b).2.2 = dropLine b := by
  have h : (getInt b).2.2 = (takeDigits (takeSign b).2).2 := by
    unfold getInt
    dsimp only
    split_ifs <;> rfl
  rw [h, dropLine_takeDigits, dropLine_takeSign]

theorem dropLine_floatScan (b : List Char) : dropLine (floatScan b).2 = dropLine b := by
  unfold floatScan
  dsimp only
  rw [dropLine_floatLoop, dropLine_skipZeros, dropLine_takeSign]

namespace IStream

theorem ofInput_settled (input : List Char) : (ofInput input).Settled :=
  ⟨rfl, fun h => absurd h (by simp [ofInput])⟩

/-- What `ClearInputBuffer` leaves of a stream: the input after the first line
feed, `eofbit` when there was none, and no `failbit`. -/
theorem clear_ignoreLine (s : IStream) :
    s.clear.ignoreLine = ⟨(dropLine s.buf).1, (dropLine s.buf).2, false⟩ := by
  simp [clear, ignoreLine, sentry, good]

theorem dropLine_eof (b : List Char) (h : (dropLine b).2 = true) : (dropLine b).1 = [] := by
  induction b with
  | nil => rfl
  | cons c cs ih =>
    by_cases hc : c = '\n'
    · simp [dropLine, hc] at h
    · rw [dropLine_cons_of_ne c cs hc] at h ⊢
      exact ih h

theorem clear_ignoreLine_settled (s : IStream) : s.clear.ignoreLine.Settled := by
  rw [clear_ignoreLine]
  exact ⟨rfl, fun h => dropLine_eof s.buf h⟩

theorem skipSpace_nil_of_not_good (s : IStream) (hs : s.Settled) (hg : s.good = false) :
    s.buf = [] := by
  apply hs.2
  have := hs.1
  simp [good, this] at hg
  exact hg

end IStream

namespace IStream

theorem extractInt_dropLine (s : IStream) (hs : s.Settled) (n : Int) :
    dropLine (s.extractInt n).2.buf = dropLine (skipSpace s.buf) := by
  by_cases hg : s.good = true
  · cases hsk : skipSpace s.buf with
    | nil => simp [extractInt, sentry, hg, hsk]
    | cons c cs =>
      simp only [extractInt, sentry, hg, hsk, if_true, Bool.false_eq_true, if_false]
      rw [dropLine_getInt]
  · have hb := skipSpace_nil_of_not_good s hs (by simpa using hg)
    simp [extractInt, sentry, hg, hb, skipSpace]

theorem extractDouble_dropLine (s : IStream) (hs : s.Settled) (x : Dbl) :
    dropLine (s.extractDouble x).2.buf = dropLine (skipSpace s.buf) := by
  by_cases hg : s.good = true
  · cases hsk : skipSpace s.buf with
    | nil => simp [extractDouble, sentry, hg, hsk]
    | cons c cs =>
      simp only [extractDouble, sentry, hg, hsk, if_true, Bool.false_eq_true, if_false]
      rw [dropLine_floatScan]
  · have hb := skipSpace_nil_of_not_good s hs (by simpa using hg)
    simp [extractDouble, sentry, hg, hb, skipSpace]

theorem extractInt_settled (s : IStream) (n : Int) (h : (s.extractInt n).2.fail = false) :
    (s.extractInt n).2.Settled := by
  refine ⟨h, ?_⟩
  by_cases hg : s.good = true
  · cases hsk : skipSpace s.buf with
    | nil => simp [extractInt, sentry, hg, hsk, fail] at h
    | cons c cs =>
      simp only [extractInt, sentry, hg, hsk, if_true, Bool.false_eq_true, if_false]
      intro he
      simpa using he
  · simp [extractInt, sentry, hg, fail] at h

theorem extractDouble_settled (s : IStream) (x : Dbl)
    (h : (s.extractDouble x).2.fail = false) : (s.extractDouble x).2.Settled := by
  refine ⟨h, ?_⟩
  by_cases hg : s.good = true
  · cases hsk : skipSpace s.buf with
    | nil => simp [extractDouble, sentry, hg, hsk, fail] at h
    | cons c cs =>
      simp only [extractDouble, sentry, hg, hsk, if_true, Bool.false_eq_true, if_false]
      intro he
      simpa using he
  · simp [extractDouble, sentry, hg, fail] at h

theorem extractChar_settled (s : IStream) (c : Char)
    (h : (s.extractChar c).2.fail = false) : (s.extractChar c).2.Settled := by
  refine ⟨h, ?_⟩
  by_cases hg : s.good = true
  · cases hsk : skipSpace s.buf with
    | nil => simp [extractChar, sentry, hg, hsk, fail] at h
    | cons d ds =>
      have he : s.eofbit = false := by
        simp [good] at hg
        exact hg.1
      simp [extractChar, sentry, hg, hsk, he]
  · simp [extractChar, sentry, hg, fail] at h

end IStream

/-! ## Properties of the menu -/

namespace App

theorem DisplayMenu_of_fail (a : App) (h : (a.cin.extractInt 0).2.fail = true) :
    a.DisplayMenu = (-1, { a with cin := (a.cin.extractInt 0).2.clear.ignoreLine,
                                  log := a.log ++ [Msg.menu, Msg.badMenuInput] }) := by
  simp [DisplayMenu, print, ClearInputBuffer, h]

theorem DisplayMenu_of_range (a : App) (h : (a.cin.extractInt 0).2.fail = false)
    (hr : (a.cin.extractInt 0).1 < 0 ∨ (a.cin.extractInt 0).1 > 1) :
    a.DisplayMenu = (-1, { a with cin := (a.cin.extractInt 0).2,
                                  log := a.log ++ [Msg.menu, Msg.badMenuChoice] }) := by
  simp [DisplayMenu, print, h, hr]

theorem DisplayMenu_of_valid (a : App) (h : (a.cin.extractInt 0).2.fail = false)
    (hr : ¬ ((a.cin.extractInt 0).1 < 0 ∨ (a.cin.extractInt 0).1 > 1)) :
    a.DisplayMenu = ((a.cin.extractInt 0).1, { a with cin := (a.cin.extractInt 0).2,
                                                      log := a.log ++ [Msg.menu] }) := by
  simp [DisplayMenu, print, h, hr]

theorem DisplayMenu_range (a : App) :
    a.DisplayMenu.1 = -1 ∨ a.DisplayMenu.1 = 0 ∨ a.DisplayMenu.1 = 1 := by
  by_cases h : (a.cin.extractInt 0).2.fail = true
  · rw [DisplayMenu_of_fail a h]; exact Or.inl rfl
  · have h' : (a.cin.extractInt 0).2.fail = false := by simpa using h
    by_cases hr : (a.cin.extractInt 0).1 < 0 ∨ (a.cin.extractInt 0).1 > 1
    · rw [DisplayMenu_of_range a h' hr]; exact Or.inl rfl
    · rw [DisplayMenu_of_valid a h' hr]
      right
      dsimp only
      omega

theorem DisplayMenu_settled (a : App) : a.DisplayMenu.2.cin.Settled := by
  by_cases h : (a.cin.extractInt 0).2.fail = true
  · rw [DisplayMenu_of_fail a h]
    exact IStream.clear_ignoreLine_settled _
  · have h' : (a.cin.extractInt 0).2.fail = false := by simpa using h
    by_cases hr : (a.cin.extractInt 0).1 < 0 ∨ (a.cin.extractInt 0).1 > 1
    · rw [DisplayMenu_of_range a h' hr]
      exact IStream.extractInt_settled _ _ h'
    · rw [DisplayMenu_of_valid a h' hr]
      exact IStream.extractInt_settled _ _ h'

end App

/-- C5: `DisplayMenu` classifies the menu input into three outcomes.  When the
read `std::cin >> menuChoice` succeeds with the integer `n`, it returns `0` for
`n = 0`, `1` for `n = 1` and `-1` for every other `n`; when the read fails
(input that is not an integer) it returns `-1`.  The returned value is always
one of `-1`, `0`, `1`.  The closing lines run it on the inputs `0`, `1`, `2`,
`-1`, `7x`, `abc`, `99999999999` and on empty input. -/
theorem DisplayMenu_classification (a : App) :
    ((a.cin.extractInt 0).2.fail = false →
        ((a.cin.extractInt 0).1 = 0 → a.DisplayMenu.1 = 0) ∧
        ((a.cin.extractInt 0).1 = 1 → a.DisplayMenu.1 = 1) ∧
        ((a.cin.extractInt 0).1 ≠ 0 → (a.cin.extractInt 0).1 ≠ 1 → a.DisplayMenu.1 = -1)) ∧
    ((a.cin.extractInt 0).2.fail = true → a.DisplayMenu.1 = -1) ∧
    (a.DisplayMenu.1 = -1 ∨ a.DisplayMenu.1 = 0 ∨ a.DisplayMenu.1 = 1) ∧
    ((App.init "0\n".toList).DisplayMenu.1 = 0 ∧ (App.init "1\n".toList).DisplayMenu.1 = 1 ∧
      (App.init "2\n".toList).DisplayMenu.1 = -1 ∧ (App.init "-1\n".toList).DisplayMenu.1 = -1 ∧
      (App.init "7x\n".toList).DisplayMenu.1 = -1 ∧ (App.init "abc\n".toList).DisplayMenu.1 = -1 ∧
      (App.init "99999999999\n".toList).DisplayMenu.1 = -1 ∧
      (App.init []).DisplayMenu.1 = -1) := by
  refine ⟨?_, ?_, App.DisplayMenu_range a, by decide⟩
  · intro h
    refine ⟨?_, ?_, ?_⟩
    · intro h0
      have hr : ¬ ((a.cin.extractInt 0).1 < 0 ∨ (a.cin.extractInt 0).1 > 1) := by omega
      rw [App.DisplayMenu_of_valid a h hr]
      exact h0
    · intro h1
      have hr : ¬ ((a.cin.extractInt 0).1 < 0 ∨ (a.cin.extractInt 0).1 > 1) := by omega
      rw [App.DisplayMenu_of_valid a h hr]
      exact h1
    · intro h0 h1
      have hr : (a.cin.extractInt 0).1 < 0 ∨ (a.cin.extractInt 0).1 > 1 := by omega
      rw [App.DisplayMenu_of_range a h hr]
  · intro h
    rw [App.DisplayMenu_of_fail a h]

/-! ## Properties of a single operation -/

theorem ofDecimal_isnan (s : Bool) (d up down : Nat) :
    (Dbl.ofDecimal s d up down).isnan = false :=
  Dbl.roundRat_isnan _ _ _

theorem strtod_isnan (x : List Char) (v : Dbl) (h : strtod x = some v) : v.isnan = false := by
  unfold strtod at h
  dsimp only at h
  split at h
  · cases h
  · split at h
    · cases h
      exact ofDecimal_isnan _ _ _ _
    · split_ifs at h <;> (cases h; exact ofDecimal_isnan _ _ _ _)

theorem convertDouble_finite (x : List Char) (h : (convertDouble x).2 = false) :
    (convertDouble x).1.isFinite = true := by
  unfold convertDouble at h ⊢
  cases hs : strtod x with
  | none => simp [hs] at h
  | some v =>
    cases v with
    | nan => exact absurd (strtod_isnan x _ hs) (by simp [Dbl.isnan])
    | inf s => simp [hs] at h
    | fin s m e => rfl

/-- A successful `std::cin >> x` stores a finite double: text that overflows
the range raises `failbit`, and `inf` or `nan` are not accepted as input. -/
theorem IStream.extractDouble_finite (s : IStream) (x : Dbl)
    (h : (s.extractDouble x).2.fail = false) : (s.extractDouble x).1.isFinite = true := by
  by_cases hg : s.good = true
  · cases hsk : skipSpace s.buf with
    | nil => simp [extractDouble, sentry, hg, hsk, fail] at h
    | cons c cs =>
      simp only [extractDouble, sentry, hg, hsk, if_true, Bool.false_eq_true, if_false,
        fail] at h ⊢
      exact convertDouble_finite _ h
  · simp [extractDouble, sentry, hg, fail] at h

theorem PerformCalculation_accepted (x y : Dbl) (op : Char) (hx : x.isFinite = true)
    (hy : y.isFinite = true) (h : Accepted op y) :
    (PerformCalculation x y op).1.isnan = false ∧ (PerformCalculation x y op).2 = [] := by
  obtain ⟨hop, hz⟩ := h
  rcases hop with rfl | rfl | rfl | rfl
  · exact ⟨Dbl.add_isnan_of_finite x y hx hy, rfl⟩
  · exact ⟨Dbl.sub_isnan_of_finite x y hx hy, rfl⟩
  · exact ⟨Dbl.mul_isnan_of_finite x y hx hy, rfl⟩
  · have h0 : y.ne0 = true := by simpa using hz
    rw [PerformCalculation_div x y h0]
    exact ⟨Dbl.div_isnan_of_finite x y hx hy h0, rfl⟩

theorem PerformCalculation_rejected (x y : Dbl) (op : Char) (h : ¬ Accepted op y) :
    PerformCalculation x y op = (Dbl.nan, [Msg.divisionByZero]) ∨
      PerformCalculation x y op = (Dbl.nan, [Msg.unsupported op]) := by
  by_cases h1 : op = '+'
  · exact absurd ⟨Or.inl h1, fun hh => absurd (h1 ▸ hh.1) (by decide)⟩ h
  by_cases h2 : op = '-'
  · exact absurd ⟨Or.inr (Or.inl h2), fun hh => absurd (h2 ▸ hh.1) (by decide)⟩ h
  by_cases h3 : op = '*'
  · exact absurd ⟨Or.inr (Or.inr (Or.inl h3)), fun hh => absurd (h3 ▸ hh.1) (by decide)⟩ h
  by_cases h4 : op = '/'
  · have h0 : y.ne0 = false := by
      by_contra hc
      exact h ⟨Or.inr (Or.inr (Or.inr h4)), fun hh => hc hh.2⟩
    left
    simp [PerformCalculation, h4, h0]
  · right
    exact PerformCalculation_default x y op h1 h2 h3 h4

namespace App

theorem RunSingleOperation_of_failA (a : App) (h : a.readA.2.fail = true) :
    a.RunSingleOperation =
      { a with cin := a.readA.2.clear.ignoreLine,
               log := a.log ++ [Msg.newOperation, Msg.promptA, Msg.badNumber],
               _firstNumber := a.readA.1 } := by
  unfold readA at h
  simp [RunSingleOperation, readA, print, ClearInputBuffer, h]

theorem RunSingleOperation_of_failOp (a : App) (hA : a.readA.2.fail = false)
    (h : a.readOp.2.fail = true) :
    a.RunSingleOperation =
      { a with cin := a.readOp.2.clear.ignoreLine,
               log := a.log ++ [Msg.newOperation, Msg.promptA, Msg.promptOp, Msg.badOperation],
               _firstNumber := a.readA.1, _operation := a.readOp.1 } := by
  unfold readOp at h
  unfold readA at h hA
  simp [RunSingleOperation, readA, readOp, print, ClearInputBuffer, h, hA]

theorem RunSingleOperation_of_failB (a : App) (hA : a.readA.2.fail = false)
    (hO : a.readOp.2.fail = false) (h : a.readB.2.fail = true) :
    a.RunSingleOperation =
      { a with cin := a.readB.2.clear.ignoreLine,
               log := a.log ++ [Msg.newOperation, Msg.promptA, Msg.promptOp, Msg.promptB,
                                Msg.badNumber],
               _firstNumber := a.readA.1, _operation := a.readOp.1,
               _secondNumber := a.readB.1 } := by
  unfold readB at h
  unfold readOp at h hO
  unfold readA at h hO hA
  simp [RunSingleOperation, readA, readOp, readB, print, ClearInputBuffer, h, hA, hO]

theorem RunSingleOperation_of_read (a : App) (hA : a.readA.2.fail = false)
    (hO : a.readOp.2.fail = false) (hB : a.readB.2.fail = false) :
    a.RunSingleOperation =
      { cin := a.readB.2,
        log := a.log ++ [Msg.newOperation, Msg.promptA, Msg.promptOp, Msg.promptB]
          ++ (PerformCalculation a.readA.1 a.readB.1 a.readOp.1).2
          ++ (if (PerformCalculation a.readA.1 a.readB.1 a.readOp.1).1.isnan = true then []
              else [Msg.result a.readA.1 a.readOp.1 a.readB.1
                      (PerformCalculation a.readA.1 a.readB.1 a.readOp.1).1]),
        _firstNumber := a.readA.1, _secondNumber := a.readB.1, _operation := a.readOp.1 } := by
  unfold readB at hB
  unfold readOp at hB hO
  unfold readA at hB hO hA
  simp only [RunSingleOperation, readA, readOp, readB, print, PrintResult, hB, hA, hO,
    Bool.false_eq_true, if_false]
  by_cases hn : (PerformCalculation (a.cin.extractDouble a._firstNumber).1
      (((a.cin.extractDouble a._firstNumber).2.extractChar a._operation).2.extractDouble
        a._secondNumber).1
      ((a.cin.extractDouble a._firstNumber).2.extractChar a._operation).1).1.isnan = true
  · simp [hn]
  · simp [hn]

end App

theorem skipSpace_head (b : List Char) (d : Char) (ds : List Char)
    (h : skipSpace b = d :: ds) : isspace d = false := by
  induction b with
  | nil => cases h
  | cons c cs ih =>
    by_cases hc : isspace c = true
    · simp only [skipSpace, hc, if_true] at h
      exact ih h
    · simp only [skipSpace, hc, Bool.false_eq_true, if_false] at h
      cases h
      simpa using hc

theorem IStream.extractChar_dropLine (s : IStream) (hs : s.Settled) (c : Char) :
    dropLine (s.extractChar c).2.buf = dropLine (skipSpace s.buf) := by
  by_cases hg : s.good = true
  · cases hsk : skipSpace s.buf with
    | nil => simp [extractChar, sentry, hg, hsk]
    | cons d ds =>
      have hd : d ≠ '\n' := by
        have := skipSpace_head _ _ _ hsk
        rintro rfl
        exact absurd this (by decide)
      simp only [extractChar, sentry, hg, hsk, if_true, Bool.false_eq_true, if_false]
      rw [dropLine_cons_of_ne d ds hd]
  · have hb := skipSpace_nil_of_not_good s hs (by simpa using hg)
    simp [extractChar, sentry, hg, hb, skipSpace]

/-- C4: when the three reads of `RunSingleOperation` succeed, the operands
read are finite and a result line is printed if and only if the evaluator
accepts the request, that is the operator is one of `+`, `-`, `*`, `/` and the
request is not a division by a zero.  An accepted request prints exactly the
four prompts and the result line; a rejected one prints the four prompts and
one diagnostic, and no result line.  On finite operands the evaluator returns
NaN exactly for the rejected requests, so no valid result is suppressed. -/
theorem RunSingleOperation_result_iff (a : App) (hA : a.readA.2.fail = false)
    (hO : a.readOp.2.fail = false) (hB : a.readB.2.fail = false) :
    a.readA.1.isFinite = true ∧ a.readB.1.isFinite = true ∧
    ((∃ m ∈ a.RunSingleOperation.log.drop a.log.length, m.isResult = true)
      ↔ Accepted a.readOp.1 a.readB.1) ∧
    (Accepted a.readOp.1 a.readB.1 →
      (PerformCalculation a.readA.1 a.readB.1 a.readOp.1).1.isnan = false ∧
      a.RunSingleOperation.log = a.log ++
        [Msg.newOperation, Msg.promptA, Msg.promptOp, Msg.promptB,
         Msg.result a.readA.1 a.readOp.1 a.readB.1
           (PerformCalculation a.readA.1 a.readB.1 a.readOp.1).1]) ∧
    (¬ Accepted a.readOp.1 a.readB.1 →
      a.RunSingleOperation.log = a.log ++
          [Msg.newOperation, Msg.promptA, Msg.promptOp, Msg.promptB, Msg.divisionByZero] ∨
      a.RunSingleOperation.log = a.log ++
          [Msg.newOperation, Msg.promptA, Msg.promptOp, Msg.promptB,
           Msg.unsupported a.readOp.1]) ∧
    (∀ (x y : Dbl) (op : Char), x.isFinite = true → y.isFinite = true →
      ((PerformCalculation x y op).1.isnan = true ↔ ¬ Accepted op y)) := by
  have fA : a.readA.1.isFinite = true := IStream.extractDouble_finite _ _ hA
  have fB : a.readB.1.isFinite = true := IStream.extractDouble_finite _ _ hB
  have hacc : Accepted a.readOp.1 a.readB.1 →
      (PerformCalculation a.readA.1 a.readB.1 a.readOp.1).1.isnan = false ∧
      a.RunSingleOperation.log = a.log ++
        [Msg.newOperation, Msg.promptA, Msg.promptOp, Msg.promptB,
         Msg.result a.readA.1 a.readOp.1 a.readB.1
           (PerformCalculation a.readA.1 a.readB.1 a.readOp.1).1] := by
    intro h
    obtain ⟨h1, h2⟩ := PerformCalculation_accepted _ _ _ fA fB h
    refine ⟨h1, ?_⟩
    rw [App.RunSingleOperation_of_read a hA hO hB]
    simp [h1, h2]
  have hrej : ¬ Accepted a.readOp.1 a.readB.1 →
      a.RunSingleOperation.log = a.log ++
          [Msg.newOperation, Msg.promptA, Msg.promptOp, Msg.promptB, Msg.divisionByZero] ∨
      a.RunSingleOperation.log = a.log ++
          [Msg.newOperation, Msg.promptA, Msg.promptOp, Msg.promptB,
           Msg.unsupported a.readOp.1] := by
    intro h
    rw [App.RunSingleOperation_of_read a hA hO hB]
    rcases PerformCalculation_rejected a.readA.1 a.readB.1 a.readOp.1 h with e | e
    · left
      simp [e, Dbl.isnan]
    · right
      simp [e, Dbl.isnan]
  refine ⟨fA, fB, ?_, hacc, hrej, ?_⟩
  · constructor
    · rintro ⟨m, hm, hr⟩
      by_contra hn
      rcases hrej hn with e | e <;>
        · rw [e] at hm
          simp at hm
          rcases hm with rfl | rfl | rfl | rfl | rfl <;> simp [Msg.isResult] at hr
    · intro h
      refine ⟨Msg.result a.readA.1 a.readOp.1 a.readB.1
        (PerformCalculation a.readA.1 a.readB.1 a.readOp.1).1, ?_, rfl⟩
      rw [(hacc h).2]
      simp
  · intro x y op hx hy
    constructor
    · intro hn hacc'
      have := (PerformCalculation_accepted x y op hx hy hacc').1
      rw [hn] at this
      cases this
    · intro hn
      rcases PerformCalculation_rejected x y op hn with e | e <;> rw [e] <;> rfl

theorem RunSingleOperation_result_iff_witness :
    (App.init "5\n/\n0\n".toList).readA.1.isFinite = true ∧
    (App.init "5\n/\n0\n".toList).readB.1.isFinite = true ∧
    ((∃ m ∈ (App.init "5\n/\n0\n".toList).RunSingleOperation.log.drop
          (App.init "5\n/\n0\n".toList).log.length, m.isResult = true)
      ↔ Accepted (App.init "5\n/\n0\n".toList).readOp.1 (App.init "5\n/\n0\n".toList).readB.1) ∧
    ¬ Accepted (App.init "5\n/\n0\n".toList).readOp.1 (App.init "5\n/\n0\n".toList).readB.1 ∧
    (App.init "5\n/\n0\n".toList).RunSingleOperation.log =
      [Msg.newOperation, Msg.promptA, Msg.promptOp, Msg.promptB, Msg.divisionByZero] :=
  have h := RunSingleOperation_result_iff (App.init "5\n/\n0\n".toList)
    (by decide) (by decide) (by decide)
  ⟨h.1, h.2.1, h.2.2.1, by decide, by decide⟩

namespace App

theorem menuLoop_of_one (fuel : Nat) (a : App) (h : a.DisplayMenu.1 = 1) :
    menuLoop (fuel + 1) a = menuLoop fuel a.DisplayMenu.2.RunSingleOperation := by
  simp [menuLoop, h]

theorem menuLoop_of_zero (fuel : Nat) (a : App) (h : a.DisplayMenu.1 = 0) :
    menuLoop (fuel + 1) a = some a.DisplayMenu.2 := by
  simp [menuLoop, h]

theorem menuLoop_of_invalid (fuel : Nat) (a : App) (h0 : a.DisplayMenu.1 ≠ 0)
    (h1 : a.DisplayMenu.1 ≠ 1) : menuLoop (fuel + 1) a = menuLoop fuel a.DisplayMenu.2 := by
  simp [menuLoop, h0, h1]

theorem menuLoop_mono (fuel k : Nat) (a f : App) (h : menuLoop fuel a = some f) :
    menuLoop (fuel + k) a = some f := by
  induction fuel generalizing a with
  | zero => cases h
  | succ n ih =>
    have e : n + 1 + k = (n + k) + 1 := by omega
    rw [e]
    by_cases h0 : a.DisplayMenu.1 = 0
    · rw [menuLoop_of_zero n a h0] at h
      rw [menuLoop_of_zero (n + k) a h0]
      exact h
    · by_cases h1 : a.DisplayMenu.1 = 1
      · rw [menuLoop_of_one n a h1] at h
        rw [menuLoop_of_one (n + k) a h1]
        exact ih _ h
      · rw [menuLoop_of_invalid n a h0 h1] at h
        rw [menuLoop_of_invalid (n + k) a h0 h1]
        exact ih _ h

end App

/-- C7: a failed read abandons the operation at that prompt.  With `std::cin`
in the state the menu leaves it in: if reading the first operand fails, the
output is the banner, the first prompt and the number-error message and
nothing else; if that read succeeds and reading the operator fails, the output
ends with the operator prompt and the operation-error message; if those
succeed and reading the second operand fails, the output ends with the third
prompt and the number-error message.  In each case no later prompt, no result
line and no evaluator diagnostic is written, the input is discarded up to and
including the first line feed after the white space that preceded the failing
read, and the stream is left without `failbit`.  After the operation the loop
goes on with the menu. -/
theorem RunSingleOperation_abandons (a : App) (hs : a.cin.Settled) :
    (a.readA.2.fail = true →
      a.RunSingleOperation.log = a.log ++ [Msg.newOperation, Msg.promptA, Msg.badNumber] ∧
      a.RunSingleOperation.cin =
        ⟨(dropLine (skipSpace a.cin.buf)).1, (dropLine (skipSpace a.cin.buf)).2, false⟩) ∧
    (a.readA.2.fail = false → a.readOp.2.fail = true →
      a.RunSingleOperation.log =
        a.log ++ [Msg.newOperation, Msg.promptA, Msg.promptOp, Msg.badOperation] ∧
      a.RunSingleOperation.cin =
        ⟨(dropLine (skipSpace a.readA.2.buf)).1, (dropLine (skipSpace a.readA.2.buf)).2,
          false⟩) ∧
    (a.readA.2.fail = false → a.readOp.2.fail = false → a.readB.2.fail = true →
      a.RunSingleOperation.log =
        a.log ++ [Msg.newOperation, Msg.promptA, Msg.promptOp, Msg.promptB, Msg.badNumber] ∧
      a.RunSingleOperation.cin =
        ⟨(dropLine (skipSpace a.readOp.2.buf)).1, (dropLine (skipSpace a.readOp.2.buf)).2,
          false⟩) ∧
    (∀ (fuel : Nat) (a0 : App), a0.DisplayMenu = (1, a) →
      App.menuLoop (fuel + 1) a0 = App.menuLoop fuel a.RunSingleOperation) := by
  refine ⟨?_, ?_, ?_, ?_⟩
  · intro h
    rw [App.RunSingleOperation_of_failA a h]
    refine ⟨rfl, ?_⟩
    dsimp only
    rw [IStream.clear_ignoreLine]
    unfold App.readA
    rw [IStream.extractDouble_dropLine _ hs]
  · intro hA h
    rw [App.RunSingleOperation_of_failOp a hA h]
    refine ⟨rfl, ?_⟩
    dsimp only
    rw [IStream.clear_ignoreLine]
    have hsA : a.readA.2.Settled := IStream.extractDouble_settled _ _ hA
    unfold App.readOp
    rw [IStream.extractChar_dropLine a.readA.2 hsA]
  · intro hA hO h
    rw [App.RunSingleOperation_of_failB a hA hO h]
    refine ⟨rfl, ?_⟩
    dsimp only
    rw [IStream.clear_ignoreLine]
    have hsO : a.readOp.2.Settled := IStream.extractChar_settled _ _ hO
    unfold App.readB
    rw [IStream.extractDouble_dropLine a.readOp.2 hsO]
  · intro fuel a0 h
    have h1 : a0.DisplayMenu.1 = 1 := by rw [h]
    have h2 : a0.DisplayMenu.2 = a := by rw [h]
    rw [App.menuLoop_of_one fuel a0 h1, h2]

theorem RunSingleOperation_abandons_witness :
    (App.init "x1 rest\n5 + y\n0\n".toList).RunSingleOperation.log
        = [Msg.newOperation, Msg.promptA, Msg.badNumber] ∧
    (App.init "x1 rest\n5 + y\n0\n".toList).RunSingleOperation.cin
        = ⟨"5 + y\n0\n".toList, false, false⟩ ∧
    (App.init "5".toList).RunSingleOperation.log
        = [Msg.newOperation, Msg.promptA, Msg.promptOp, Msg.badOperation] ∧
    (App.init "5 + y z\n0\n".toList).RunSingleOperation.log
        = [Msg.newOperation, Msg.promptA, Msg.promptOp, Msg.promptB, Msg.badNumber] ∧
    (App.init "5 + y z\n0\n".toList).RunSingleOperation.cin
        = ⟨"0\n".toList, false, false⟩ :=
  ⟨((RunSingleOperation_abandons (App.init "x1 rest\n5 + y\n0\n".toList)
      (by decide)).1 (by decide)).1,
    by decide, by decide,
    ((RunSingleOperation_abandons (App.init "5 + y z\n0\n".toList)
      (by decide)).2.2.1 (by decide) (by decide) (by decide)).1,
    by decide⟩

/-! ## End of input -/

theorem skipSpace_dropLine_nil (b : List Char) (h : skipSpace b = []) :
    skipSpace (dropLine b).1 = [] := by
  induction b with
  | nil => rfl
  | cons c cs ih =>
    by_cases hc : isspace c = true
    · simp only [skipSpace, hc, if_true] at h
      by_cases hn : c = '\n'
      · simp only [dropLine, hn, if_true]
        exact h
      · rw [dropLine_cons_of_ne c cs hn]
        exact ih h
    · simp [skipSpace, hc] at h

theorem IStream.extractInt_exhausted (s : IStream) (n : Int) (h : skipSpace s.buf = []) :
    (s.extractInt n).2.fail = true ∧ skipSpace (s.extractInt n).2.buf = [] := by
  by_cases hg : s.good = true
  · simp [extractInt, sentry, hg, h, fail, skipSpace]
  · simp [extractInt, sentry, hg, h, fail]

theorem IStream.extractDouble_exhausted (s : IStream) (x : Dbl) (h : skipSpace s.buf = []) :
    (s.extractDouble x).2.fail = true ∧ skipSpace (s.extractDouble x).2.buf = [] := by
  by_cases hg : s.good = true
  · simp [extractDouble, sentry, hg, h, fail, skipSpace]
  · simp [extractDouble, sentry, hg, h, fail]

namespace App

theorem DisplayMenu_exhausted (a : App) (h : skipSpace a.cin.buf = []) :
    a.DisplayMenu.1 = -1 ∧ a.DisplayMenu.2.log = a.log ++ [Msg.menu, Msg.badMenuInput] ∧
      skipSpace a.DisplayMenu.2.cin.buf = [] := by
  obtain ⟨hf, hb⟩ := IStream.extractInt_exhausted a.cin 0 h
  rw [DisplayMenu_of_fail a hf]
  refine ⟨rfl, rfl, ?_⟩
  dsimp only
  rw [IStream.clear_ignoreLine]
  exact skipSpace_dropLine_nil _ hb

theorem RunSingleOperation_exhausted (a : App) (h : skipSpace a.cin.buf = []) :
    skipSpace a.RunSingleOperation.cin.buf = [] := by
  obtain ⟨hf, hb⟩ := IStream.extractDouble_exhausted a.cin a._firstNumber h
  rw [RunSingleOperation_of_failA a hf]
  dsimp only
  rw [IStream.clear_ignoreLine]
  exact skipSpace_dropLine_nil _ hb

theorem menuLoop_exhausted (fuel : Nat) (a : App) (h : skipSpace a.cin.buf = []) :
    menuLoop fuel a = none := by
  induction fuel generalizing a with
  | zero => rfl
  | succ n ih =>
    obtain ⟨h1, _, h3⟩ := DisplayMenu_exhausted a h
    rw [menuLoop_of_invalid n a (by rw [h1]; decide) (by rw [h1]; decide)]
    exact ih _ h3

end App

/-! ## Pending input after the menu -/

theorem takeSign_append (b : List Char) : (takeSign b).1 ++ (takeSign b).2 = b := by
  cases b with
  | nil => rfl
  | cons c cs =>
    by_cases h : c = '+' ∨ c = '-'
    · simp [takeSign, h]
    · simp [takeSign, h]

theorem takeSign_chars (b : List Char) : ∀ c ∈ (takeSign b).1, c = '+' ∨ c = '-' := by
  cases b with
  | nil => simp [takeSign]
  | cons c cs =>
    by_cases h : c = '+' ∨ c = '-'
    · simp [takeSign, h]
    · simp [takeSign, h]

theorem takeDigits_append (b : List Char) : (takeDigits b).1 ++ (takeDigits b).2 = b := by
  induction b with
  | nil => rfl
  | cons c cs ih =>
    by_cases h : isdigit c = true
    · simp only [takeDigits, h, if_true, List.cons_append]
      rw [ih]
    · simp [takeDigits, h]

theorem takeDigits_chars (b : List Char) : ∀ c ∈ (takeDigits b).1, isdigit c = true := by
  induction b with
  | nil => simp [takeDigits]
  | cons c cs ih =>
    by_cases h : isdigit c = true
    · simp only [takeDigits, h, if_true]
      intro d hd
      rcases List.mem_cons.mp hd with rfl | hd
      · exact h
      · exact ih d hd
    · simp [takeDigits, h]

theorem getInt_rest (b : List Char) : (getInt b).2.2 = (takeDigits (takeSign b).2).2 := by
  unfold getInt
  dsimp only
  split_ifs <;> rfl

theorem getInt_ok_digits (b : List Char) (h : (getInt b).2.1 = false) :
    (takeDigits (takeSign b).2).1 ≠ [] := by
  intro hd
  unfold getInt at h
  simp [hd] at h

theorem getInt_fail_of_nondigit (c : Char) (cs : List Char) (hd : isdigit c = false)
    (hp : c ≠ '+') (hm : c ≠ '-') : (getInt (c :: cs)).2.1 = true := by
  have h1 : takeSign (c :: cs) = ([], c :: cs) := by simp [takeSign, hp, hm]
  have h2 : takeDigits (c :: cs) = ([], c :: cs) := by simp [takeDigits, hd]
  unfold getInt
  simp [h1, h2]

/-- C9: the two invalid branches of the menu treat the pending input
differently.  With `std::cin` in the state the program leaves it in between
reads: when the read of the menu choice fails, as it does whenever the first
character after the white space is neither a digit nor a sign, `DisplayMenu`
returns `-1` and the input is discarded up to and including the next line
feed; when an integer other than 0 and 1 is read, `DisplayMenu` returns `-1`
and the pending input is exactly what followed the sign and digits of that
integer.  So the line `abc 0` never ends the session, while the line `5 0`
does. -/
theorem DisplayMenu_pending_input (a : App) (hs : a.cin.Settled) :
    ((a.cin.extractInt 0).2.fail = true →
      a.DisplayMenu.1 = -1 ∧ a.DisplayMenu.2.log = a.log ++ [Msg.menu, Msg.badMenuInput] ∧
      a.DisplayMenu.2.cin =
        ⟨(dropLine (skipSpace a.cin.buf)).1, (dropLine (skipSpace a.cin.buf)).2, false⟩) ∧
    (∀ (c : Char) (cs : List Char), skipSpace a.cin.buf = c :: cs →
      isdigit c = false → c ≠ '+' → c ≠ '-' →
      (a.cin.extractInt 0).2.fail = true ∧ a.DisplayMenu.2.cin.buf = (dropLine (c :: cs)).1) ∧
    ((a.cin.extractInt 0).2.fail = false →
      (a.cin.extractInt 0).1 ≠ 0 → (a.cin.extractInt 0).1 ≠ 1 →
      a.DisplayMenu.1 = -1 ∧ a.DisplayMenu.2.log = a.log ++ [Msg.menu, Msg.badMenuChoice] ∧
      a.DisplayMenu.2.cin = (a.cin.extractInt 0).2 ∧
      ∃ tok : List Char, skipSpace a.cin.buf = tok ++ a.DisplayMenu.2.cin.buf ∧ tok ≠ [] ∧
        ∀ c ∈ tok, isdigit c = true ∨ c = '+' ∨ c = '-') ∧
    (∀ fuel : Nat, main fuel "abc 0\n".toList = none) ∧
    main 2 "5 0\n".toList
      = some (0, [Msg.welcome, Msg.menu, Msg.badMenuChoice, Msg.menu, Msg.farewell]) := by
  have key : (a.cin.extractInt 0).2.fail = true →
      a.DisplayMenu.1 = -1 ∧ a.DisplayMenu.2.log = a.log ++ [Msg.menu, Msg.badMenuInput] ∧
      a.DisplayMenu.2.cin =
        ⟨(dropLine (skipSpace a.cin.buf)).1, (dropLine (skipSpace a.cin.buf)).2, false⟩ := by
    intro h
    rw [App.DisplayMenu_of_fail a h]
    refine ⟨rfl, rfl, ?_⟩
    dsimp only
    rw [IStream.clear_ignoreLine, IStream.extractInt_dropLine _ hs]
  refine ⟨key, ?_, ?_, ?_, by decide⟩
  · intro c cs hsk hd hp hm
    have hf : (a.cin.extractInt 0).2.fail = true := by
      by_cases hg : a.cin.good = true
      · simp only [IStream.extractInt, IStream.sentry, hg, hsk, if_true, Bool.false_eq_true,
          if_false, IStream.fail]
        exact getInt_fail_of_nondigit c cs hd hp hm
      · simp [IStream.extractInt, IStream.sentry, hg, IStream.fail]
    refine ⟨hf, ?_⟩
    rw [(key hf).2.2, hsk]
  · intro h h0 h1
    have hr : (a.cin.extractInt 0).1 < 0 ∨ (a.cin.extractInt 0).1 > 1 := by omega
    rw [App.DisplayMenu_of_range a h hr]
    refine ⟨rfl, rfl, rfl, ?_⟩
    dsimp only
    by_cases hg : a.cin.good = true
    · cases hsk : skipSpace a.cin.buf with
      | nil => simp [IStream.extractInt, IStream.sentry, hg, hsk, IStream.fail] at h
      | cons c cs =>
        simp only [IStream.extractInt, IStream.sentry, hg, hsk, if_true, Bool.false_eq_true,
          if_false, IStream.fail] at h ⊢
        refine ⟨(takeSign (c :: cs)).1 ++ (takeDigits (takeSign (c :: cs)).2).1, ?_, ?_, ?_⟩
        · rw [getInt_rest, List.append_assoc, takeDigits_append, takeSign_append]
        · intro he
          exact getInt_ok_digits _ h (List.append_eq_nil.mp he).2
        · intro d hd
          rcases List.mem_append.mp hd with hd | hd
          · exact Or.inr (takeSign_chars _ d hd)
          · exact Or.inl (takeDigits_chars _ d hd)
    · simp [IStream.extractInt, IStream.sentry, hg, IStream.fail] at h
  · intro fuel
    unfold main
    rw [App.RunApplication]
    cases fuel with
    | zero => rfl
    | succ n =>
      rw [App.menuLoop_of_invalid n _ (by decide) (by decide),
        App.menuLoop_exhausted n _ (by decide)]
      rfl

theorem DisplayMenu_pending_input_witness :
    (App.init "abc 0\n1\n".toList).DisplayMenu.1 = -1 ∧
    (App.init "abc 0\n1\n".toList).DisplayMenu.2.cin = ⟨"1\n".toList, false, false⟩ ∧
    (App.init "5 0\n1\n".toList).DisplayMenu.1 = -1 ∧
    (App.init "5 0\n1\n".toList).DisplayMenu.2.cin = ⟨" 0\n1\n".toList, false, false⟩ :=
  have h := DisplayMenu_pending_input (App.init "abc 0\n1\n".toList) (by decide)
  ⟨(h.1 (by decide)).1, by decide, by decide, by decide⟩

/-! ## The session state machine -/

theorem sessionRun_terminated (n : Nat) (a : App) :
    sessionRun n (Session.Terminated, a) = (Session.Terminated, a) := by
  induction n with
  | zero => rfl
  | succ n ih => simpa [sessionRun, sessionStep] using ih

theorem sessionRun_of_menuLoop (fuel : Nat) (a f : App) (h : App.menuLoop fuel a = some f) :
    ∃ n : Nat, sessionRun n (Session.AwaitingMenuChoice, a)
      = (Session.Terminated, f.print Msg.farewell) := by
  induction fuel generalizing a with
  | zero => cases h
  | succ k ih =>
    by_cases h0 : a.DisplayMenu.1 = 0
    · rw [App.menuLoop_of_zero k a h0] at h
      cases h
      refine ⟨1, ?_⟩
      simp [sessionRun, sessionStep, h0]
    · by_cases h1 : a.DisplayMenu.1 = 1
      · rw [App.menuLoop_of_one k a h1] at h
        obtain ⟨n, hn⟩ := ih _ h
        refine ⟨n + 2, ?_⟩
        simpa [sessionRun, sessionStep, h1] using hn
      · rw [App.menuLoop_of_invalid k a h0 h1] at h
        obtain ⟨n, hn⟩ := ih _ h
        refine ⟨n + 1, ?_⟩
        simpa [sessionRun, sessionStep, h0, h1] using hn

theorem menuLoop_of_sessionRun (n : Nat) (a g : App)
    (h : sessionRun n (Session.AwaitingMenuChoice, a) = (Session.Terminated, g)) :
    ∃ (fuel : Nat) (f : App), App.menuLoop fuel a = some f ∧ g = f.print Msg.farewell := by
  induction n using Nat.strong_induction_on generalizing a with
  | _ n ih =>
    cases n with
    | zero => simp [sessionRun] at h
    | succ m =>
      by_cases h0 : a.DisplayMenu.1 = 0
      · have hstep : sessionStep (Session.AwaitingMenuChoice, a)
            = (Session.Terminated, a.DisplayMenu.2.print Msg.farewell) := by
          simp [sessionStep, h0]
        rw [sessionRun, hstep, sessionRun_terminated] at h
        refine ⟨1, a.DisplayMenu.2, App.menuLoop_of_zero 0 a h0, ?_⟩
        exact (Prod.mk.inj h).2.symm
      · by_cases h1 : a.DisplayMenu.1 = 1
        · simp only [sessionRun, sessionStep, h1, if_true] at h
          cases m with
          | zero => simp [sessionRun] at h
          | succ j =>
            simp only [sessionRun, sessionStep] at h
            obtain ⟨fuel, f, hf, hg⟩ := ih j (by omega) _ h
            exact ⟨fuel + 1, f, by rw [App.menuLoop_of_one fuel a h1]; exact hf, hg⟩
        · simp only [sessionRun, sessionStep, h0, h1, if_false] at h
          obtain ⟨fuel, f, hf, hg⟩ := ih m (by omega) _ h
          exact ⟨fuel + 1, f, by rw [App.menuLoop_of_invalid fuel a h0 h1]; exact hf, hg⟩

theorem menuLoop_ends_with_zero (fuel : Nat) (a f : App) (h : App.menuLoop fuel a = some f) :
    ∃ b : App, b.DisplayMenu = (0, f) := by
  induction fuel generalizing a with
  | zero => cases h
  | succ k ih =>
    by_cases h0 : a.DisplayMenu.1 = 0
    · rw [App.menuLoop_of_zero k a h0] at h
      cases h
      exact ⟨a, Prod.ext h0 rfl⟩
    · by_cases h1 : a.DisplayMenu.1 = 1
      · rw [App.menuLoop_of_one k a h1] at h
        exact ih _ h
      · rw [App.menuLoop_of_invalid k a h0 h1] at h
        exact ih _ h

theorem DisplayMenu_log (a : App) :
    a.DisplayMenu.2.log = a.log ++ [Msg.menu] ∨
      (a.DisplayMenu.1 = -1 ∧ (a.DisplayMenu.2.log = a.log ++ [Msg.menu, Msg.badMenuInput] ∨
        a.DisplayMenu.2.log = a.log ++ [Msg.menu, Msg.badMenuChoice])) := by
  by_cases h : (a.cin.extractInt 0).2.fail = true
  · rw [App.DisplayMenu_of_fail a h]
    exact Or.inr ⟨rfl, Or.inl rfl⟩
  · have h' : (a.cin.extractInt 0).2.fail = false := by simpa using h
    by_cases hr : (a.cin.extractInt 0).1 < 0 ∨ (a.cin.extractInt 0).1 > 1
    · rw [App.DisplayMenu_of_range a h' hr]
      exact Or.inr ⟨rfl, Or.inr rfl⟩
    · rw [App.DisplayMenu_of_valid a h' hr]
      exact Or.inl rfl

/-- C6: `RunApplication` follows the session state machine of the
specification.  A run of the program ends in the state `f` exactly when the
state machine, started in `AwaitingMenuChoice` after the welcome line, reaches
`Terminated` with `f`.  One iteration of the loop does this: on menu choice 1
it runs one operation and continues with the menu; on menu choice 0 it leaves
the loop without running an operation; on any other outcome it runs no
operation, prints only the menu and one invalid-input message, and continues
with the menu.  The loop ends only through a menu read that returned 0, more
iterations allowed do not change its result, and `main` then returns 0 with
the farewell as the last output.  The closing lines
run the inputs `0`, `abc` then `0`, and `7` then `0`. -/
theorem RunApplication_session (a : App) :
    (∀ f : App, (∃ fuel : Nat, a.RunApplication fuel = some f) ↔
      (∃ n : Nat, sessionRun n (Session.AwaitingMenuChoice, a.print Msg.welcome)
        = (Session.Terminated, f))) ∧
    (∀ fuel : Nat,
      (a.DisplayMenu.1 = 1 →
        App.menuLoop (fuel + 1) a = App.menuLoop fuel a.DisplayMenu.2.RunSingleOperation) ∧
      (a.DisplayMenu.1 = 0 →
        App.menuLoop (fuel + 1) a = some a.DisplayMenu.2 ∧
        a.DisplayMenu.2.log = a.log ++ [Msg.menu]) ∧
      (a.DisplayMenu.1 ≠ 0 → a.DisplayMenu.1 ≠ 1 →
        App.menuLoop (fuel + 1) a = App.menuLoop fuel a.DisplayMenu.2 ∧
        (a.DisplayMenu.2.log = a.log ++ [Msg.menu, Msg.badMenuInput] ∨
          a.DisplayMenu.2.log = a.log ++ [Msg.menu, Msg.badMenuChoice]))) ∧
    (∀ (fuel : Nat) (f : App), App.menuLoop fuel a = some f →
      (∃ b : App, b.DisplayMenu = (0, f)) ∧ ∀ k : Nat, App.menuLoop (fuel + k) a = some f) ∧
    (∀ (fuel : Nat) (input : List Char) (r : Int × List Msg), main fuel input = some r →
      r.1 = 0 ∧ r.2.getLast? = some Msg.farewell) ∧
    (main 1 "0\n".toList = some (0, [Msg.welcome, Msg.menu, Msg.farewell]) ∧
      main 2 "abc\n0\n".toList
        = some (0, [Msg.welcome, Msg.menu, Msg.badMenuInput, Msg.menu, Msg.farewell]) ∧
      main 2 "7\n0\n".toList
        = some (0, [Msg.welcome, Msg.menu, Msg.badMenuChoice, Msg.menu, Msg.farewell])) := by
  refine ⟨?_, ?_, ?_, ?_, by decide⟩
  · intro f
    constructor
    · rintro ⟨fuel, hf⟩
      unfold App.RunApplication at hf
      cases hm : App.menuLoop fuel (a.print Msg.welcome) with
      | none => simp [hm] at hf
      | some g =>
        simp only [hm, Option.map_some', Option.some.injEq] at hf
        obtain ⟨n, hn⟩ := sessionRun_of_menuLoop fuel _ g hm
        exact ⟨n, by rw [hn, hf]⟩
    · rintro ⟨n, hn⟩
      obtain ⟨fuel, g, hg, hfg⟩ := menuLoop_of_sessionRun n _ f hn
      refine ⟨fuel, ?_⟩
      unfold App.RunApplication
      rw [hg, hfg]
      rfl
  · intro fuel
    refine ⟨App.menuLoop_of_one fuel a, ?_, ?_⟩
    · intro h0
      refine ⟨App.menuLoop_of_zero fuel a h0, ?_⟩
      rcases DisplayMenu_log a with h | ⟨h, _⟩
      · exact h
      · rw [h0] at h
        cases h
    · intro h0 h1
      refine ⟨App.menuLoop_of_invalid fuel a h0 h1, ?_⟩
      rcases DisplayMenu_log a with h | ⟨_, h⟩
      · by_cases hf : (a.cin.extractInt 0).2.fail = true
        · rw [App.DisplayMenu_of_fail a hf]
          exact Or.inl rfl
        · have hf' : (a.cin.extractInt 0).2.fail = false := by simpa using hf
          by_cases hr : (a.cin.extractInt 0).1 < 0 ∨ (a.cin.extractInt 0).1 > 1
          · rw [App.DisplayMenu_of_range a hf' hr]
            exact Or.inr rfl
          · exfalso
            rw [App.DisplayMenu_of_valid a hf' hr] at h0 h1
            dsimp only at h0 h1
            omega
      · exact h
  · intro fuel f h
    exact ⟨menuLoop_ends_with_zero fuel a f h, fun k => App.menuLoop_mono fuel k a f h⟩
  · intro fuel input r h
    unfold main App.RunApplication at h
    cases hm : App.menuLoop fuel ((App.init input).print Msg.welcome) with
    | none => simp [hm] at h
    | some g =>
      simp only [hm, Option.map_some', Option.some.injEq] at h
      rw [← h]
      simp [App.print]

/-! ## Sessions that never end -/

theorem IStream.extractChar_exhausted (s : IStream) (c : Char) (h : skipSpace s.buf = []) :
    (s.extractChar c).2.fail = true ∧ skipSpace (s.extractChar c).2.buf = [] := by
  by_cases hg : s.good = true
  · simp [extractChar, sentry, hg, h, fail, skipSpace]
  · simp [extractChar, sentry, hg, h, fail]

namespace App

theorem RunSingleOperation_exhausted_op (a : App) (hA : a.readA.2.fail = false)
    (h : skipSpace a.readA.2.buf = []) :
    a.readOp.2.fail = true ∧ skipSpace a.RunSingleOperation.cin.buf = [] := by
  obtain ⟨hf, hb⟩ := IStream.extractChar_exhausted a.readA.2 a._operation h
  have hf' : a.readOp.2.fail = true := hf
  refine ⟨hf', ?_⟩
  rw [RunSingleOperation_of_failOp a hA hf']
  dsimp only
  rw [IStream.clear_ignoreLine]
  exact skipSpace_dropLine_nil _ hb

theorem RunSingleOperation_exhausted_B (a : App) (hA : a.readA.2.fail = false)
    (hO : a.readOp.2.fail = false) (h : skipSpace a.readOp.2.buf = []) :
    a.readB.2.fail = true ∧ skipSpace a.RunSingleOperation.cin.buf = [] := by
  obtain ⟨hf, hb⟩ := IStream.extractDouble_exhausted a.readOp.2 a._secondNumber h
  have hf' : a.readB.2.fail = true := hf
  refine ⟨hf', ?_⟩
  rw [RunSingleOperation_of_failB a hA hO hf']
  dsimp only
  rw [IStream.clear_ignoreLine]
  exact skipSpace_dropLine_nil _ hb

end App

theorem sessionRun_add (m n : Nat) (c : Session × App) :
    sessionRun (m + n) c = sessionRun n (sessionRun m c) := by
  induction m generalizing c with
  | zero => simp [sessionRun]
  | succ k ih =>
    have e : k + 1 + n = (k + n) + 1 := by omega
    rw [e, sessionRun, sessionRun, ih]

theorem sessionRun_exhausted (k : Nat) (s : Session) (b : App)
    (hs : s ≠ Session.Terminated) (hb : skipSpace b.cin.buf = []) :
    (sessionRun k (s, b)).1 ≠ Session.Terminated ∧
      skipSpace (sessionRun k (s, b)).2.cin.buf = [] := by
  induction k generalizing s b with
  | zero => exact ⟨hs, hb⟩
  | succ n ih =>
    cases s with
    | AwaitingMenuChoice =>
      obtain ⟨h1, _, h3⟩ := App.DisplayMenu_exhausted b hb
      have hstep : sessionStep (Session.AwaitingMenuChoice, b)
          = (Session.AwaitingMenuChoice, b.DisplayMenu.2) := by
        simp [sessionStep, h1]
      rw [sessionRun, hstep]
      exact ih _ _ (by decide) h3
    | RunningOperation =>
      have hstep : sessionStep (Session.RunningOperation, b)
          = (Session.AwaitingMenuChoice, b.RunSingleOperation) := rfl
      rw [sessionRun, hstep]
      exact ih _ _ (by decide) (App.RunSingleOperation_exhausted b hb)
    | Terminated => exact absurd rfl hs

/-- Once a session has reached a state that is not `Terminated` with nothing
but white space left of the input, the loop started at the beginning of that
session never ends. -/
theorem menuLoop_none_of_reach (a b : App) (n : Nat) (s : Session)
    (hr : sessionRun n (Session.AwaitingMenuChoice, a) = (s, b))
    (hs : s ≠ Session.Terminated) (hb : skipSpace b.cin.buf = []) (fuel : Nat) :
    App.menuLoop fuel a = none := by
  cases hm : App.menuLoop fuel a with
  | none => rfl
  | some f =>
    exfalso
    obtain ⟨m, hmm⟩ := sessionRun_of_menuLoop fuel a f hm
    rcases Nat.le_total m n with hle | hle
    · obtain ⟨d, rfl⟩ := Nat.exists_eq_add_of_le hle
      rw [sessionRun_add, hmm, sessionRun_terminated] at hr
      exact hs (Prod.mk.inj hr).1.symm
    · obtain ⟨d, rfl⟩ := Nat.exists_eq_add_of_le hle
      rw [sessionRun_add, hr] at hmm
      have := (sessionRun_exhausted d s b hs hb).1
      rw [hmm] at this
      exact this rfl

/-- C10, as the program behaves: the loop ends only through a menu read that
returned 0, and once the input is exhausted (nothing or only white space is
left) at any prompt, the session never ends.  At the menu prompt `DisplayMenu`
fails to read, prints the invalid-input message, returns `-1` and leaves the
input exhausted, so the menu is shown again without end.  At the prompt for
the first operand, at the prompt for the operator after the first operand was
read, and at the prompt for the second operand after operand and operator
were read, the read fails, `RunSingleOperation` hands an exhausted input back
to the menu, and the loop that follows never ends.  For a whole session: once
it has reached, after any number of transitions, a state other than
`Terminated` with the input exhausted, or a state in `RunningOperation` whose
operation finds the input exhausted at one of its three prompts, the loop
from the start of the session is still running after any number of
iterations.  The closing lines: the inputs `1 5`, `1 5 +` and `abc` followed
by end-of-input never end the session. -/
theorem RunApplication_input_exhausted (a : App) :
    (skipSpace a.cin.buf = [] →
      a.DisplayMenu.1 = -1 ∧ a.DisplayMenu.2.log = a.log ++ [Msg.menu, Msg.badMenuInput] ∧
      skipSpace a.DisplayMenu.2.cin.buf = [] ∧
      (∀ fuel : Nat, App.menuLoop fuel a = none) ∧
      (∀ fuel : Nat, a.RunApplication fuel = none)) ∧
    (skipSpace a.cin.buf = [] →
      a.readA.2.fail = true ∧ skipSpace a.RunSingleOperation.cin.buf = [] ∧
      (∀ fuel : Nat, App.menuLoop fuel a.RunSingleOperation = none)) ∧
    (a.readA.2.fail = false → skipSpace a.readA.2.buf = [] →
      a.readOp.2.fail = true ∧ skipSpace a.RunSingleOperation.cin.buf = [] ∧
      (∀ fuel : Nat, App.menuLoop fuel a.RunSingleOperation = none)) ∧
    (a.readA.2.fail = false → a.readOp.2.fail = false → skipSpace a.readOp.2.buf = [] →
      a.readB.2.fail = true ∧ skipSpace a.RunSingleOperation.cin.buf = [] ∧
      (∀ fuel : Nat, App.menuLoop fuel a.RunSingleOperation = none)) ∧
    (∀ (n : Nat) (s : Session) (b : App),
      sessionRun n (Session.AwaitingMenuChoice, a) = (s, b) → s ≠ Session.Terminated →
      skipSpace b.cin.buf = [] → ∀ fuel : Nat, App.menuLoop fuel a = none) ∧
    (∀ (n : Nat) (b : App),
      sessionRun n (Session.AwaitingMenuChoice, a) = (Session.RunningOperation, b) →
      (skipSpace b.cin.buf = [] ∨
        (b.readA.2.fail = false ∧ skipSpace b.readA.2.buf = []) ∨
        (b.readA.2.fail = false ∧ b.readOp.2.fail = false ∧
          skipSpace b.readOp.2.buf = [])) →
      ∀ fuel : Nat, App.menuLoop fuel a = none) ∧
    (∀ (fuel : Nat) (b f : App), App.menuLoop fuel b = some f →
      ∃ c : App, c.DisplayMenu = (0, f)) ∧
    ((∀ fuel : Nat, main fuel "1\n5\n".toList = none) ∧
      (∀ fuel : Nat, main fuel "1\n5\n+\n".toList = none) ∧
      (∀ fuel : Nat, main fuel "abc\n".toList = none)) := by
  have hmain : ∀ (input : List Char) (n : Nat),
      (sessionRun n (Session.AwaitingMenuChoice, (App.init input).print Msg.welcome)).1
        ≠ Session.Terminated →
      skipSpace (sessionRun n
        (Session.AwaitingMenuChoice, (App.init input).print Msg.welcome)).2.cin.buf = [] →
      ∀ fuel : Nat, main fuel input = none := by
    intro input n hs hb fuel
    unfold main App.RunApplication
    rw [menuLoop_none_of_reach _ _ n _ rfl hs hb fuel]
    rfl
  refine ⟨?_, ?_, ?_, ?_, ?_, ?_, fun fuel b f hb => menuLoop_ends_with_zero fuel b f hb,
    ?_, ?_, ?_⟩
  · intro h
    obtain ⟨h1, h2, h3⟩ := App.DisplayMenu_exhausted a h
    refine ⟨h1, h2, h3, fun fuel => App.menuLoop_exhausted fuel a h, ?_⟩
    intro fuel
    unfold App.RunApplication
    rw [App.menuLoop_exhausted fuel (a.print Msg.welcome) h]
    rfl
  · intro h
    have hx := App.RunSingleOperation_exhausted a h
    exact ⟨(IStream.extractDouble_exhausted a.cin a._firstNumber h).1, hx,
      fun fuel => App.menuLoop_exhausted fuel _ hx⟩
  · intro hA h
    obtain ⟨hf, hx⟩ := App.RunSingleOperation_exhausted_op a hA h
    exact ⟨hf, hx, fun fuel => App.menuLoop_exhausted fuel _ hx⟩
  · intro hA hO h
    obtain ⟨hf, hx⟩ := App.RunSingleOperation_exhausted_B a hA hO h
    exact ⟨hf, hx, fun fuel => App.menuLoop_exhausted fuel _ hx⟩
  · intro n s b hr hs hb fuel
    exact menuLoop_none_of_reach a b n s hr hs hb fuel
  · intro n b hr hcase fuel
    have hx : skipSpace b.RunSingleOperation.cin.buf = [] := by
      rcases hcase with h | ⟨hA, h⟩ | ⟨hA, hO, h⟩
      · exact App.RunSingleOperation_exhausted b h
      · exact (App.RunSingleOperation_exhausted_op b hA h).2
      · exact (App.RunSingleOperation_exhausted_B b hA hO h).2
    have hr' : sessionRun (n + 1) (Session.AwaitingMenuChoice, a)
        = (Session.AwaitingMenuChoice, b.RunSingleOperation) := by
      rw [sessionRun_add, hr]
      rfl
    exact menuLoop_none_of_reach a _ (n + 1) _ hr' (by decide) hx fuel
  · exact hmain _ 2 (by decide) (by decide)
  · exact hmain _ 2 (by decide) (by decide)
  · exact hmain _ 1 (by decide) (by decide)

theorem RunApplication_input_exhausted_witness :
    ((App.init "1\n5\n".toList).DisplayMenu.2.readA.1 = Dbl.ofDecimal false 5 0 0 ∧
      (App.init "1\n5\n".toList).DisplayMenu.2.readOp.2.fail = true ∧
      (App.init "1\n5\n".toList).DisplayMenu.2.RunSingleOperation.log
        = [Msg.menu, Msg.newOperation, Msg.promptA, Msg.promptOp, Msg.badOperation] ∧
      ∀ fuel : Nat,
        App.menuLoop fuel (App.init "1\n5\n".toList).DisplayMenu.2.RunSingleOperation = none) ∧
    ((App.init "1 5 +".toList).DisplayMenu.2.readOp.1 = '+' ∧
      (App.init "1 5 +".toList).DisplayMenu.2.readB.2.fail = true ∧
      (App.init "1 5 +".toList).DisplayMenu.2.RunSingleOperation.log
        = [Msg.menu, Msg.newOperation, Msg.promptA, Msg.promptOp, Msg.promptB,
           Msg.badNumber] ∧
      ∀ fuel : Nat,
        App.menuLoop fuel (App.init "1 5 +".toList).DisplayMenu.2.RunSingleOperation = none) ∧
    ((App.init "7 \n".toList).DisplayMenu.2.DisplayMenu.1 = -1 ∧
      ∀ fuel : Nat, App.menuLoop fuel (App.init "7 \n".toList).DisplayMenu.2 = none) ∧
    (∀ fuel : Nat, App.menuLoop fuel (App.init "1\n2.5\n".toList) = none) :=
  have hOp := (RunApplication_input_exhausted (App.init "1\n5\n".toList).DisplayMenu.2).2.2.1
    (by decide) (by decide)
  have hB := (RunApplication_input_exhausted (App.init "1 5 +".toList).DisplayMenu.2).2.2.2.1
    (by decide) (by decide) (by decide)
  have hM := (RunApplication_input_exhausted (App.init "7 \n".toList).DisplayMenu.2).1
    (by decide)
  have hS := (RunApplication_input_exhausted (App.init "1\n2.5\n".toList)).2.2.2.2.2.1
    1 (App.init "1\n2.5\n".toList).DisplayMenu.2 (by decide) (Or.inr (Or.inl (by decide)))
  ⟨⟨by decide, hOp.1, by decide, hOp.2.2⟩, ⟨by decide, hB.1, by decide, hB.2.2⟩,
    ⟨hM.1, hM.2.2.2.1⟩, hS⟩

/-- C10 as stated fails: on empty input, and on the input `1 5` that ends at
the operator prompt, no number of loop iterations ends the session. -/
theorem RunApplication_terminates_counterexample :
    (¬ ∃ fuel : Nat, main fuel [] ≠ none) ∧ (¬ ∃ fuel : Nat, main fuel "1\n5\n".toList ≠ none) := by
  constructor
  · rintro ⟨fuel, hf⟩
    apply hf
    unfold main
    rw [App.RunApplication, App.menuLoop_exhausted fuel _ (by decide)]
    rfl
  · rintro ⟨fuel, hf⟩
    apply hf
    unfold main
    rw [App.RunApplication]
    cases fuel with
    | zero => rfl
    | succ n =>
      rw [App.menuLoop_of_one n _ (by decide), App.menuLoop_exhausted n _ (by decide)]
      rfl

/-! ## Formatting of the result line -/

theorem isdigit_digitChar (d : Nat) : isdigit (digitChar d) = true := by
  unfold digitChar
  have h : d % 10 < 10 := Nat.mod_lt _ (by decide)
  interval_cases (d % 10) <;> decide

theorem natDigits_chars (fuel n : Nat) (acc : List Char)
    (hacc : ∀ c ∈ acc, isdigit c = true) : ∀ c ∈ natDigits fuel n acc, isdigit c = true := by
  induction fuel generalizing n acc with
  | zero =>
    intro c hc
    rcases List.mem_cons.mp hc with rfl | hc
    · exact isdigit_digitChar n
    · exact hacc c hc
  | succ k ih =>
    have hcons : ∀ c ∈ digitChar n :: acc, isdigit c = true := by
      intro c hc
      rcases List.mem_cons.mp hc with rfl | hc
      · exact isdigit_digitChar n
      · exact hacc c hc
    unfold natDigits
    split_ifs
    · exact hcons
    · exact ih _ _ hcons

theorem natDigits_ne_nil (fuel n : Nat) (acc : List Char) : natDigits fuel n acc ≠ [] := by
  induction fuel generalizing n acc with
  | zero => simp [natDigits]
  | succ k ih =>
    unfold natDigits
    split_ifs
    · simp
    · exact ih _ _

theorem fixed_two_shape (s : Bool) (n : Nat) :
    HasTwoFractionDigits ((if s = true then ['-'] else []) ++ natToDec (n / 10 ^ 2)
      ++ (if 2 = 0 then [] else '.' :: fracDigits 2 (n % 10 ^ 2))) := by
  refine ⟨if s = true then ['-'] else [], natToDec (n / 10 ^ 2),
    digitChar (n % 10 ^ 2 / 10 ^ 1), digitChar (n % 10 ^ 2 / 10 ^ 0), ?_, ?_,
    natDigits_ne_nil _ _ _, natDigits_chars _ _ _ (by simp), isdigit_digitChar _,
    isdigit_digitChar _⟩
  · simp [fracDigits]
  · cases s <;> simp

/-- Every finite double is written by `std::fixed << std::setprecision(2)`
with exactly two digits after the decimal point. -/
theorem toFixed_two_digits (x : Dbl) (h : x.isFinite = true) :
    HasTwoFractionDigits (x.toFixed 2) := by
  cases x with
  | nan => cases h
  | inf s => cases h
  | fin s m e => exact fixed_two_shape s _

theorem hasTwoFractionDigits_point (t : List Char) (h : HasTwoFractionDigits t) : '.' ∈ t := by
  obtain ⟨sign, ip, d1, d2, rfl, _⟩ := h
  simp

/-- C8, as the program behaves: when the three reads succeed and the evaluator
accepts the request, the result line is the last thing `RunSingleOperation`
prints and reads `A op B = result`; both operands are written with exactly
two digits after the decimal point, and so is the result whenever it is
finite; a result that overflowed is written `inf` or `-inf`.  The closing
lines: the session `1`, `5`, `+`, `3`, `0` prints `5.00 + 3.00 = 8.00`, and
the sum of 1.0 and 3.0 is written `4.00`. -/
theorem PrintResult_format (a : App) (hA : a.readA.2.fail = false)
    (hO : a.readOp.2.fail = false) (hB : a.readB.2.fail = false)
    (hacc : Accepted a.readOp.1 a.readB.1) :
    a.RunSingleOperation.log = a.log ++
      [Msg.newOperation, Msg.promptA, Msg.promptOp, Msg.promptB,
       Msg.result a.readA.1 a.readOp.1 a.readB.1
         (PerformCalculation a.readA.1 a.readB.1 a.readOp.1).1] ∧
    (Msg.result a.readA.1 a.readOp.1 a.readB.1
        (PerformCalculation a.readA.1 a.readB.1 a.readOp.1).1).text
      = "\n=> РЕЗУЛЬТАТ: " ++ String.mk (a.readA.1.toFixed 2) ++ " "
          ++ String.mk [a.readOp.1] ++ " " ++ String.mk (a.readB.1.toFixed 2) ++ " = "
          ++ String.mk ((PerformCalculation a.readA.1 a.readB.1 a.readOp.1).1.toFixed 2)
          ++ "\n" ∧
    HasTwoFractionDigits (a.readA.1.toFixed 2) ∧
    HasTwoFractionDigits (a.readB.1.toFixed 2) ∧
    ((PerformCalculation a.readA.1 a.readB.1 a.readOp.1).1.isFinite = true →
      HasTwoFractionDigits ((PerformCalculation a.readA.1 a.readB.1 a.readOp.1).1.toFixed 2)) ∧
    ((PerformCalculation a.readA.1 a.readB.1 a.readOp.1).1.isFinite = false →
      (PerformCalculation a.readA.1 a.readB.1 a.readOp.1).1.toFixed 2 = ['i', 'n', 'f'] ∨
      (PerformCalculation a.readA.1 a.readB.1 a.readOp.1).1.toFixed 2
        = ['-', 'i', 'n', 'f']) ∧
    (main 2 "1\n5\n+\n3\n0\n".toList
        = some (0, [Msg.welcome, Msg.menu, Msg.newOperation, Msg.promptA, Msg.promptOp,
            Msg.promptB,
            Msg.result (Dbl.ofDecimal false 5 0 0) '+' (Dbl.ofDecimal false 3 0 0)
              (Dbl.ofDecimal false 8 0 0),
            Msg.menu, Msg.farewell]) ∧
      (Msg.result (Dbl.ofDecimal false 5 0 0) '+' (Dbl.ofDecimal false 3 0 0)
          (Dbl.ofDecimal false 8 0 0)).text = "\n=> РЕЗУЛЬТАТ: 5.00 + 3.00 = 8.00\n" ∧
      ((Dbl.ofDecimal false 1 0 0).add (Dbl.ofDecimal false 3 0 0)).toFixed 2
        = ['4', '.', '0', '0']) := by
  have fA : a.readA.1.isFinite = true := IStream.extractDouble_finite _ _ hA
  have fB : a.readB.1.isFinite = true := IStream.extractDouble_finite _ _ hB
  obtain ⟨h1, h2⟩ := PerformCalculation_accepted _ _ _ fA fB hacc
  refine ⟨?_, rfl, toFixed_two_digits _ fA, toFixed_two_digits _ fB,
    toFixed_two_digits _, ?_, by decide⟩
  · rw [App.RunSingleOperation_of_read a hA hO hB]
    simp [h1, h2]
  · intro hfin
    cases hr : (PerformCalculation a.readA.1 a.readB.1 a.readOp.1).1 with
    | nan => rw [hr] at h1; cases h1
    | inf s => cases s <;> simp [Dbl.toFixed]
    | fin s m e => rw [hr] at hfin; cases hfin

theorem PrintResult_format_witness :
    (App.init "5\n+\n3\n".toList).RunSingleOperation.log =
      [Msg.newOperation, Msg.promptA, Msg.promptOp, Msg.promptB,
       Msg.result (Dbl.ofDecimal false 5 0 0) '+' (Dbl.ofDecimal false 3 0 0)
         (Dbl.ofDecimal false 8 0 0)] ∧
    HasTwoFractionDigits ((App.init "5\n+\n3\n".toList).readA.1.toFixed 2) ∧
    HasTwoFractionDigits ((App.init "5\n+\n3\n".toList).readB.1.toFixed 2) :=
  have h := PrintResult_format (App.init "5\n+\n3\n".toList)
    (by decide) (by decide) (by decide) (by decide)
  ⟨by decide, h.2.2.1, h.2.2.2.1⟩

/-- C8 as stated fails: in the session `1`, `1e308`, `*`, `10`, `0` both
operands are read successfully and are finite, the evaluator accepts the
request and a result line is printed, but the product overflows and the result
is written `inf`, which has no decimal point and no fraction digits. -/
theorem PrintResult_format_counterexample :
    main 2 "1\n1e308\n*\n10\n0\n".toList
      = some (0, [Msg.welcome, Msg.menu, Msg.newOperation, Msg.promptA, Msg.promptOp,
          Msg.promptB,
          Msg.result (Dbl.fin false 5010420900022432 2045) '*'
            (Dbl.fin false 5629499534213120 1025) (Dbl.inf false),
          Msg.menu, Msg.farewell]) ∧
    (Dbl.fin false 5010420900022432 2045).isFinite = true ∧
    (Dbl.fin false 5629499534213120 1025).isFinite = true ∧
    PerformCalculation (Dbl.fin false 5010420900022432 2045)
      (Dbl.fin false 5629499534213120 1025) '*' = (Dbl.inf false, []) ∧
    (Dbl.inf false).toFixed 2 = ['i', 'n', 'f'] ∧
    ¬ HasTwoFractionDigits ((Dbl.inf false).toFixed 2) := by
  refine ⟨by decide, rfl, rfl, by decide, rfl, ?_⟩
  intro h
  exact absurd (hasTwoFractionDigits_point _ h) (by decide)

/-! ## Whole sessions -/

/-- The extraction operators on sample inputs: what is stored, what is left
unread, and the state bits. -/
theorem extraction_examples :
    (IStream.ofInput "12abc".toList).extractInt 0 = (12, ⟨"abc".toList, false, false⟩) ∧
    (IStream.ofInput "  -7\n".toList).extractInt 0 = (-7, ⟨"\n".toList, false, false⟩) ∧
    (IStream.ofInput "1".toList).extractInt 0 = (1, ⟨[], true, false⟩) ∧
    (IStream.ofInput "x".toList).extractInt 5 = (0, ⟨"x".toList, false, true⟩) ∧
    (IStream.ofInput " \n".toList).extractInt 5 = (5, ⟨[], true, true⟩) ∧
    (IStream.ofInput "99999999999 ".toList).extractInt 0
      = (2147483647, ⟨" ".toList, false, true⟩) ∧
    (IStream.ofInput " +\n".toList).extractChar 'x' = ('+', ⟨"\n".toList, false, false⟩) ∧
    (IStream.ofInput " \n".toList).extractChar 'x' = ('x', ⟨[], true, true⟩) ∧
    (IStream.ofInput "2.5e1x".toList).extractDouble Dbl.zero
      = (Dbl.ofDecimal false 25 0 0, ⟨"x".toList, false, false⟩) ∧
    (IStream.ofInput "-.5 ".toList).extractDouble Dbl.zero
      = (Dbl.ofDecimal true 5 0 1, ⟨" ".toList, false, false⟩) ∧
    (IStream.ofInput "1e+ 3".toList).extractDouble Dbl.nan
      = (Dbl.zero, ⟨" 3".toList, false, true⟩) ∧
    (IStream.ofInput "inf".toList).extractDouble Dbl.nan
      = (Dbl.zero, ⟨"inf".toList, false, true⟩) ∧
    (IStream.ofInput "1e999\n".toList).extractDouble Dbl.zero
      = (Dbl.maxFinite, ⟨"\n".toList, false, true⟩) ∧
    (IStream.ofInput "x y\nz".toList).clear.ignoreLine = ⟨"z".toList, false, false⟩ ∧
    (IStream.ofInput "x y".toList).clear.ignoreLine = ⟨[], true, false⟩ := by
  decide

/-- The complete output of the session `1`, `5`, `+`, `3`, `0`. -/
theorem session_transcript :
    (main 2 "1\n5\n+\n3\n0\n".toList).map (fun r => (r.1, transcript r.2)) = some (0,
      "Добро пожаловать в ООП-Калькулятор!\n" ++
      "\n=======================================\n" ++
      "          МЕНЮ КАЛЬКУЛЯТОРА\n" ++
      "=======================================\n" ++
      "1. Выполнить новую операцию\n" ++
      "0. Выйти из программы\n" ++
      "---------------------------------------\n" ++
      "Ваш выбор: " ++
      "\n--- Новая операция ---\n" ++
      "Введите первое число (A): Введите операцию (+, -, *, /): Введите второе число (B): " ++
      "\n=> РЕЗУЛЬТАТ: 5.00 + 3.00 = 8.00\n" ++
      "\n=======================================\n" ++
      "          МЕНЮ КАЛЬКУЛЯТОРА\n" ++
      "=======================================\n" ++
      "1. Выполнить новую операцию\n" ++
      "0. Выйти из программы\n" ++
      "---------------------------------------\n" ++
      "Ваш выбор: " ++
      "\nПрограмма завершена. Спасибо за использование!\n") := by
  decide
end Calculator
